import Mathlib

/-!
Shallow embedding of `setup-openclaw.py` (the OpenClaw provisioning script)
and proofs about its configuration-assembly, memory-limit and retry logic.

JSON values are modelled by the inductive type `J`; Python dicts are
association lists preserving insertion order (Python dict semantics: updates
keep the position of an existing key, new keys are appended).  Steps of
`main` that can raise (`TypeError`/`KeyError` on malformed pre-existing
configuration) return `Option`; `none` models the uncaught exception.
-/

set_option maxHeartbeats 1000000

namespace OpenClaw

/-- A JSON value, as manipulated by the script. -/
inductive J where
  | s (v : String)
  | i (v : Int)
  | b (v : Bool)
  | arr (vs : List J)
  | obj (entries : List (String × J))

/-- A Python dict holding JSON values: an insertion-ordered association list. -/
abbrev Dict := List (String × J)

/-- Python `d[key]` lookup (first, i.e. unique, occurrence). -/
def getKey : Dict → String → Option J
  | [], _ => none
  | (k, v) :: rest, key => if k = key then some v else getKey rest key

/-- Python `key in d`. -/
def hasKey (d : Dict) (key : String) : Bool :=
  (getKey d key).isSome

/-- Python `d[key] = v`: replace in place if the key exists, else append. -/
def setKey : Dict → String → J → Dict
  | [], key, v => [(key, v)]
  | (k, w) :: rest, key, v =>
      if k = key then (k, v) :: rest else (k, w) :: setKey rest key v

/-- The key sequence of a dict. -/
def keys (d : Dict) : List String := d.map Prod.fst

/-- The idiom `if key not in d: d[key] = {}`. -/
def ensureKeyDict (d : Dict) (key : String) : Dict :=
  if hasKey d key then d else setKey d key (J.obj [])

/-- Read `d[key]` expecting a dict; a non-dict value models the `TypeError`
the script raises when it indexes or assigns into it. -/
def getObjAt (d : Dict) (key : String) : Option Dict :=
  match getKey d key with
  | some (J.obj o) => some o
  | _ => none

/-- Follow a path of keys through nested dicts. -/
def getPath (d : Dict) : List String → Option J
  | [] => some (J.obj d)
  | [k] => getKey d k
  | k :: rest =>
      match getKey d k with
      | some (J.obj o) => getPath o rest
      | _ => none

/-- Lookup in a string-valued association list (`os.environ`, parsed `.env`). -/
def lookupS : List (String × String) → String → Option String
  | [], _ => none
  | (k, v) :: rest, key => if k = key then some v else lookupS rest key

/-- Assignment in a string-valued association list (Python dict semantics). -/
def setS : List (String × String) → String → String → List (String × String)
  | [], key, v => [(key, v)]
  | (k, w) :: rest, key, v =>
      if k = key then (k, v) :: rest else (k, w) :: setS rest key v

/-- Python `a or b` on strings (empty string is falsy). -/
def pyOrS (a b : String) : String := if a = "" then b else a

/-- `mask` (line 32): `"***SET***" if value else "(not set)"`. -/
def mask (value : String) : String :=
  if value = "" then "(not set)" else "***SET***"

/-- Python `str(bool)`. -/
def pyBoolStr (b : Bool) : String := if b then "True" else "False"

/-- Boolean prefix test on character lists (Python `str.startswith`). -/
def pfx : List Char → List Char → Bool
  | [], _ => true
  | _ :: _, [] => false
  | a :: as, b :: bs => a = b && pfx as bs

/-- Python `s.startswith(p)`. -/
def pyStartswith (s p : String) : Bool := pfx p.data s.data

/-- Python `s.strip()` (whitespace from both ends). -/
def pyStrip (s : String) : String :=
  String.mk (((s.data.dropWhile Char.isWhitespace).reverse.dropWhile
      Char.isWhitespace).reverse)

/-- Split a character list at the first `'='` (Python `line.split("=", 1)`
under the guard `"=" in line`); `none` when there is no `'='`. -/
def splitFirstEq : List Char → Option (List Char × List Char)
  | [] => none
  | c :: rest =>
      if c = '=' then some ([], rest)
      else (splitFirstEq rest).map (fun p => (c :: p.1, p.2))

/-- One iteration of the `load_env_file` loop (lines 59-65): strip the line,
skip blanks and `#` comments, split on the first `'='`, strip key and value,
silently ignore lines with no `'='`. -/
def parseEnvLine (env_vars : List (String × String)) (rawLine : String) :
    List (String × String) :=
  let line := pyStrip rawLine
  if line = "" || pyStartswith line "#" then env_vars
  else
    match splitFirstEq line.data with
    | none => env_vars
    | some (k, v) =>
        setS env_vars (pyStrip (String.mk k)) (pyStrip (String.mk v))

/-- `load_env_file` (lines 54-66); `none` models a missing `.env` file. -/
def load_env_file (file : Option (List String)) : List (String × String) :=
  match file with
  | none => []
  | some lns => lns.foldl parseEnvLine []

/-- `get_config` (lines 69-70):
`os.environ.get(key) or env_file_vars.get(key) or ""`. -/
def get_config (environ env_file_vars : List (String × String))
    (key : String) : String :=
  pyOrS ((lookupS environ key).getD "")
    (pyOrS ((lookupS env_file_vars key).getD "") "")

/-- `get_ark_url` (lines 73-84). -/
def get_ark_url (site : String) (coding_plan : Bool) : String :=
  if site = "BytePlus" then
    if coding_plan then "https://ark.ap-southeast.bytepluses.com/api/coding/v3"
    else "https://ark.ap-southeast.bytepluses.com/api/v3"
  else
    if coding_plan then "https://ark.cn-beijing.volces.com/api/coding/v3"
    else "https://ark.cn-beijing.volces.com/api/v3"

/-- Hex digit for a value below 16 (lowercase, as `secrets.token_hex`). -/
def hexDigit (n : Nat) : Char :=
  if n < 10 then Char.ofNat (48 + n) else Char.ofNat (87 + n)

/-- `secrets.token_hex` applied to the drawn random bytes: each byte becomes
two lowercase hex digits. -/
def token_hex (bytes : List Nat) : String :=
  String.mk (bytes.foldr
    (fun byt acc => hexDigit (byt % 256 / 16) :: hexDigit (byt % 256 % 16) :: acc)
    [])

/-- `deep_merge` (lines 87-94): iterate the update's items over the evolving
result; recurse when both sides hold a dict, otherwise overwrite. -/
def deep_merge : Dict → Dict → Dict
  | base, [] => base
  | base, (key, value) :: rest =>
      match getKey base key, value with
      | some (J.obj bo), J.obj vo =>
          deep_merge (setKey base key (J.obj (deep_merge bo vo))) rest
      | _, _ => deep_merge (setKey base key value) rest
termination_by _ u => sizeOf u
decreasing_by all_goals (simp_wf <;> omega)

/-! ### Constants of the script (lines 14-18) -/

def LOG_FILE : String := "/var/log/openclaw-setup.log"
def CONFIG_DIR : String := "/root/.openclaw"
def CONFIG_FILE : String := "/root/.openclaw/openclaw.json"
def ENV_FILE : String := "/root/.openclaw/.env"
def SCRIPT_VERSION : String := "0203.1"

/-- The ten credentials resolved at lines 107-116. -/
structure Creds where
  ark_api_key : String
  ark_model_id : String
  ark_coding_plan : Bool
  feishu_app_id : String
  feishu_app_secret : String
  telegram_bot_token : String
  dingtalk_client_id : String
  dingtalk_client_secret : String
  wecom_token : String
  wecom_encoding_aes_key : String

/-- Credential resolution (lines 107-116). -/
def resolveCreds (environ env_file_vars : List (String × String)) : Creds :=
  { ark_api_key := get_config environ env_file_vars "ARK_API_KEY"
    ark_model_id := get_config environ env_file_vars "ARK_MODEL_ID"
    ark_coding_plan := get_config environ env_file_vars "ARK_CODING_PLAN" = "true"
    feishu_app_id := get_config environ env_file_vars "FEISHU_APP_ID"
    feishu_app_secret := get_config environ env_file_vars "FEISHU_APP_SECRET"
    telegram_bot_token := get_config environ env_file_vars "TELEGRAM_BOT_TOKEN"
    dingtalk_client_id := get_config environ env_file_vars "DINGTALK_CLIENT_ID"
    dingtalk_client_secret := get_config environ env_file_vars "DINGTALK_CLIENT_SECRET"
    wecom_token := get_config environ env_file_vars "WECOM_TOKEN"
    wecom_encoding_aes_key := get_config environ env_file_vars "WECOM_ENCODING_AES_KEY" }

/-- Lines 144-150: ensure `gateway` and `gateway.auth` are dicts, then
unconditionally overwrite `gateway.auth.token` with the fresh token. -/
def gatewayTokenStep (gateway_token : String) (config : Dict) : Option Dict := do
  let config := ensureKeyDict config "gateway"
  let gw ← getObjAt config "gateway"
  let gw := ensureKeyDict gw "auth"
  let auth ← getObjAt gw "auth"
  let auth := setKey auth "token" (J.s gateway_token)
  return setKey config "gateway" (J.obj (setKey gw "auth" (J.obj auth)))

/-- The single model entry of the `ark_config` literal (lines 165-182). -/
def arkModelEntry (ark_model_id instance_id : String) : Dict :=
  [("id", J.s ark_model_id),
   ("name", J.s ark_model_id),
   ("reasoning", J.b false),
   ("input", J.arr [J.s "text"]),
   ("cost", J.obj [("input", J.i 0), ("output", J.i 0),
      ("cacheRead", J.i 0), ("cacheWrite", J.i 0)]),
   ("contextWindow", J.i 200000),
   ("maxTokens", J.i 8192),
   ("headers", J.obj [("X-Client-Request-Id",
      J.s ("ecs-openclaw/" ++ SCRIPT_VERSION ++ "/" ++ instance_id))]),
   ("compat", J.obj [("supportsDeveloperRole", J.b false)])]

/-- The `ark` provider entry of the `ark_config` literal (lines 160-184). -/
def arkProviderEntries (ark_url ark_api_key ark_model_id instance_id : String) :
    Dict :=
  [("baseUrl", J.s ark_url),
   ("apiKey", J.s ark_api_key),
   ("api", J.s "openai-completions"),
   ("models", J.arr [J.obj (arkModelEntry ark_model_id instance_id)])]

/-- The `ark_config` dict literal (lines 157-186). -/
def arkConfigUpdate (ark_url ark_api_key ark_model_id instance_id : String) : Dict :=
  [("mode", J.s "merge"),
   ("providers", J.obj [
     ("ark", J.obj
       (arkProviderEntries ark_url ark_api_key ark_model_id instance_id))])]

/-- Lines 152-197: the ARK provider/model block, gated on both the API key
and the model id; `config.get("models", {})` with a non-dict value crashes
inside `deep_merge`. -/
def arkStep (c : Creds) (site instance_id : String) (config : Dict) :
    Option Dict :=
  if c.ark_api_key ≠ "" ∧ c.ark_model_id ≠ "" then do
    let ark_url := get_ark_url site c.ark_coding_plan
    let base ← (match getKey config "models" with
      | none => some ([] : Dict)
      | some (J.obj o) => some o
      | some _ => none)
    let config := setKey config "models"
      (J.obj (deep_merge base
        (arkConfigUpdate ark_url c.ark_api_key c.ark_model_id instance_id)))
    let config := ensureKeyDict config "agents"
    let ag ← getObjAt config "agents"
    let ag := ensureKeyDict ag "defaults"
    let df ← getObjAt ag "defaults"
    let df := setKey df "model" (J.obj [("primary", J.s ("ark/" ++ c.ark_model_id))])
    let df := setKey df "models" (J.obj [("ark/" ++ c.ark_model_id, J.obj [])])
    return setKey config "agents" (J.obj (setKey ag "defaults" (J.obj df)))
  else some config

/-- Lines 202-209: write `channels.feishu.appId` when the app id is present. -/
def feishuIdStep (feishu_app_id : String) (config : Dict) : Option Dict :=
  if feishu_app_id ≠ "" then do
    let ch ← getObjAt config "channels"
    let ch := ensureKeyDict ch "feishu"
    let fs ← getObjAt ch "feishu"
    let fs := setKey fs "appId" (J.s feishu_app_id)
    return setKey config "channels" (J.obj (setKey ch "feishu" (J.obj fs)))
  else some config

/-- Lines 211-218: write `channels.feishu.appSecret` when the secret is present. -/
def feishuSecretStep (feishu_app_secret : String) (config : Dict) : Option Dict :=
  if feishu_app_secret ≠ "" then do
    let ch ← getObjAt config "channels"
    let ch := ensureKeyDict ch "feishu"
    let fs ← getObjAt ch "feishu"
    let fs := setKey fs "appSecret" (J.s feishu_app_secret)
    return setKey config "channels" (J.obj (setKey ch "feishu" (J.obj fs)))
  else some config

/-- The telegram channel block literal (lines 222-228). -/
def telegramChannelObj (telegram_bot_token : String) : J :=
  J.obj [
    ("enabled", J.b true),
    ("dmPolicy", J.s "pairing"),
    ("botToken", J.s telegram_bot_token),
    ("groupPolicy", J.s "allowlist"),
    ("streamMode", J.s "partial")]

/-- The dingtalk-connector channel block literal (lines 241-247). -/
def dingtalkChannelObj (dingtalk_client_id dingtalk_client_secret : String)
    (gateway_token : J) : J :=
  J.obj [
    ("enabled", J.b true),
    ("clientId", J.s dingtalk_client_id),
    ("clientSecret", J.s dingtalk_client_secret),
    ("gatewayToken", gateway_token),
    ("sessionTimeout", J.i 1800000)]

/-- The wecom channel block literal (lines 265-270). -/
def wecomChannelObj (wecom_token wecom_encoding_aes_key : String) : J :=
  J.obj [
    ("enabled", J.b true),
    ("webhookPath", J.s "/wecom"),
    ("token", J.s wecom_token),
    ("encodingAESKey", J.s wecom_encoding_aes_key)]

/-- Lines 220-236: replace `channels.telegram` wholesale and register the
plugin entry. -/
def telegramStep (telegram_bot_token : String) (config : Dict) : Option Dict :=
  if telegram_bot_token ≠ "" then do
    let ch ← getObjAt config "channels"
    let ch := setKey ch "telegram" (telegramChannelObj telegram_bot_token)
    let config := setKey config "channels" (J.obj ch)
    let config := ensureKeyDict config "plugins"
    let pl ← getObjAt config "plugins"
    let pl := ensureKeyDict pl "entries"
    let en ← getObjAt pl "entries"
    let en := setKey en "telegram" (J.obj [("enabled", J.b true)])
    return setKey config "plugins" (J.obj (setKey pl "entries" (J.obj en)))
  else some config

/-- Lines 238-259: replace `channels.dingtalk-connector` wholesale (embedding
the gateway token read back from the config) and enable the
`gateway.http.endpoints.chatCompletions` flag. -/
def dingtalkStep (dingtalk_client_id dingtalk_client_secret : String)
    (config : Dict) : Option Dict :=
  if dingtalk_client_id ≠ "" ∧ dingtalk_client_secret ≠ "" then do
    let gw ← getObjAt config "gateway"
    let auth ← getObjAt gw "auth"
    let gateway_token ← getKey auth "token"
    let ch ← getObjAt config "channels"
    let ch := setKey ch "dingtalk-connector"
      (dingtalkChannelObj dingtalk_client_id dingtalk_client_secret gateway_token)
    let config := setKey config "channels" (J.obj ch)
    let config := ensureKeyDict config "gateway"
    let gw2 ← getObjAt config "gateway"
    let gw2 := ensureKeyDict gw2 "http"
    let http ← getObjAt gw2 "http"
    let http := ensureKeyDict http "endpoints"
    let ep ← getObjAt http "endpoints"
    let ep := ensureKeyDict ep "chatCompletions"
    let cc ← getObjAt ep "chatCompletions"
    let cc := setKey cc "enabled" (J.b true)
    let ep := setKey ep "chatCompletions" (J.obj cc)
    let http := setKey http "endpoints" (J.obj ep)
    let gw2 := setKey gw2 "http" (J.obj http)
    return setKey config "gateway" (J.obj gw2)
  else some config

/-- Lines 261-288: replace `channels.wecom` wholesale and widen the gateway
exposure (`bind = "lan"`, insecure-auth control UI, chatCompletions flag). -/
def wecomStep (wecom_token wecom_encoding_aes_key : String) (config : Dict) :
    Option Dict :=
  if wecom_token ≠ "" ∧ wecom_encoding_aes_key ≠ "" then do
    let ch ← getObjAt config "channels"
    let ch := setKey ch "wecom"
      (wecomChannelObj wecom_token wecom_encoding_aes_key)
    let config := setKey config "channels" (J.obj ch)
    let config := ensureKeyDict config "gateway"
    let gw ← getObjAt config "gateway"
    let gw := setKey gw "bind" (J.s "lan")
    let gw := ensureKeyDict gw "controlUi"
    let cu ← getObjAt gw "controlUi"
    let cu := setKey cu "enabled" (J.b true)
    let cu := setKey cu "allowInsecureAuth" (J.b true)
    let gw := setKey gw "controlUi" (J.obj cu)
    let gw := ensureKeyDict gw "http"
    let http ← getObjAt gw "http"
    let http := ensureKeyDict http "endpoints"
    let ep ← getObjAt http "endpoints"
    let ep := ensureKeyDict ep "chatCompletions"
    let cc ← getObjAt ep "chatCompletions"
    let cc := setKey cc "enabled" (J.b true)
    let ep := setKey ep "chatCompletions" (J.obj cc)
    let http := setKey http "endpoints" (J.obj ep)
    let gw := setKey gw "http" (J.obj http)
    return setKey config "gateway" (J.obj gw)
  else some config

/-- Lines 290-293: stamp `meta.lastTouchedAt`. -/
def metaStep (now : String) (config : Dict) : Option Dict := do
  let config := ensureKeyDict config "meta"
  let mt ← getObjAt config "meta"
  let mt := setKey mt "lastTouchedAt" (J.s now)
  return setKey config "meta" (J.obj mt)

/-- The configuration transformation of `main` (lines 130-293), from resolved
credentials.  `prior` is the JSON document loaded from the existing config
file (`none` when the file does not exist); a non-dict document crashes the
script before the token assignment, as does any malformed nested value. -/
def runFromCreds (c : Creds) (prior : Option J) (site instance_id : String)
    (tokenBytes : List Nat) (now : String) : Option Dict := do
  let config0 ← (match prior with
    | none => some ([] : Dict)
    | some (J.obj o) => some o
    | some _ => none)
  let config ← gatewayTokenStep (token_hex tokenBytes) config0
  let config ← arkStep c site instance_id config
  let config := ensureKeyDict config "channels"
  let config ← feishuIdStep c.feishu_app_id config
  let config ← feishuSecretStep c.feishu_app_secret config
  let config ← telegramStep c.telegram_bot_token config
  let config ← dingtalkStep c.dingtalk_client_id c.dingtalk_client_secret config
  let config ← wecomStep c.wecom_token c.wecom_encoding_aes_key config
  metaStep now config

/-- The AES-key length warning of line 264. -/
def aesWarning (n : Nat) : String :=
  "Warning: EncodingAESKey should be 43 characters (got " ++ toString n ++ ")"

/-- The messages passed to `log` during the configuration phase
(lines 98-303), in order.  Timestamps added by `log` itself are omitted. -/
def buildLogs (env_file_vars : List (String × String)) (c : Creds)
    (priorExists : Bool) (site instance_id : String)
    (tokenBytes : List Nat) : List String :=
  ["========== setup-openclaw.py started ==========",
   "Loading config from " ++ ENV_FILE ++ "..."]
  ++ (if env_file_vars.length ≠ 0 then
        ["Found .env file, loaded " ++ toString env_file_vars.length ++ " vars"]
      else ["No .env file found, using environment variables only"])
  ++ ["Final config:",
      "  ARK_API_KEY: " ++ mask c.ark_api_key,
      "  ARK_MODEL_ID: " ++ pyOrS c.ark_model_id "(not set)",
      "  ARK_CODING_PLAN: " ++ pyBoolStr c.ark_coding_plan,
      "  FEISHU_APP_ID: " ++ mask c.feishu_app_id,
      "  FEISHU_APP_SECRET: " ++ mask c.feishu_app_secret,
      "  TELEGRAM_BOT_TOKEN: " ++ mask c.telegram_bot_token,
      "  DINGTALK_CLIENT_ID: " ++ mask c.dingtalk_client_id,
      "  DINGTALK_CLIENT_SECRET: " ++ mask c.dingtalk_client_secret,
      "  WECOM_TOKEN: " ++ mask c.wecom_token,
      "  WECOM_ENCODING_AES_KEY: " ++ mask c.wecom_encoding_aes_key]
  ++ (if priorExists then
        ["Loading existing config from " ++ CONFIG_FILE ++ "..."]
      else ["No existing config, starting fresh..."])
  ++ ["Site: " ++ site,
      "Instance ID: " ++ instance_id,
      "Generated gateway auth token: " ++ (token_hex tokenBytes).take 8 ++ "..."]
  ++ (if c.ark_api_key ≠ "" ∧ c.ark_model_id ≠ "" then
        ["Configuring ARK model...",
         "ARK_BASE_URL: " ++ get_ark_url site c.ark_coding_plan,
         "ARK configured successfully"]
      else ["Skipping ARK config (ARK_API_KEY or ARK_MODEL_ID not set)"])
  ++ (if c.feishu_app_id ≠ "" then
        ["Configuring Feishu App ID...", "Feishu App ID configured"]
      else ["Skipping Feishu App ID (not set)"])
  ++ (if c.feishu_app_secret ≠ "" then
        ["Configuring Feishu App Secret...", "Feishu App Secret configured"]
      else ["Skipping Feishu App Secret (not set)"])
  ++ (if c.telegram_bot_token ≠ "" then
        ["Configuring Telegram...", "Telegram configured"]
      else ["Skipping Telegram (not set)"])
  ++ (if c.dingtalk_client_id ≠ "" ∧ c.dingtalk_client_secret ≠ "" then
        ["Configuring DingTalk...",
         "DingTalk configured (chatCompletions endpoint enabled)"]
      else ["Skipping DingTalk (DINGTALK_CLIENT_ID or DINGTALK_CLIENT_SECRET not set)"])
  ++ (if c.wecom_token ≠ "" ∧ c.wecom_encoding_aes_key ≠ "" then
        ["Configuring WeCom..."]
        ++ (if c.wecom_encoding_aes_key.length ≠ 43 then
              [aesWarning c.wecom_encoding_aes_key.length]
            else [])
        ++ ["Enabling public access for WeCom...",
            "WeCom configured (public access enabled)"]
      else ["Skipping WeCom (WECOM_TOKEN or WECOM_ENCODING_AES_KEY not set)"])
  ++ (if priorExists then ["Backup created: " ++ CONFIG_FILE ++ ".bak"] else [])
  ++ ["Writing config to " ++ CONFIG_FILE ++ "...", "Config saved"]

/-- The whole configuration phase: resolve credentials from the environment
and the `.env` file, transform the loaded document, and report the log
stream of the phase. -/
def runConfigPhase (environ : List (String × String))
    (envFile : Option (List String)) (prior : Option J)
    (site instance_id : String) (tokenBytes : List Nat) (now : String) :
    Option (Dict × List String) := do
  let env_file_vars := load_env_file envFile
  let c := resolveCreds environ env_file_vars
  let config ← runFromCreds c prior site instance_id tokenBytes now
  return (config, buildLogs env_file_vars c prior.isSome site instance_id tokenBytes)

/-! ### Memory-limit configuration (lines 334-381) -/

/-- Python `str.splitlines` for LF-separated text: segments terminated by
`'\n'`, plus a final unterminated non-empty segment. -/
def splitLinesL : List Char → List (List Char)
  | [] => []
  | c :: rest =>
      if c = '\n' then [] :: splitLinesL rest
      else
        match splitLinesL rest with
        | [] => [[c]]
        | l :: ls => (c :: l) :: ls

/-- Python `"\n".join` on character lists. -/
def joinNLL : List (List Char) → List Char
  | [] => []
  | [l] => l
  | l :: ls => l ++ '\n' :: joinNLL ls

/-- Python `s.splitlines()`. -/
def pySplitlines (s : String) : List String :=
  (splitLinesL s.data).map String.mk

/-- Python `"\n".join(lines)`. -/
def joinNL (lines : List String) : String :=
  String.mk (joinNLL (lines.map String.data))

/-- Python `pat in s` (substring occurrence test). -/
def occursL (pat : List Char) : List Char → Bool
  | [] => pat.isEmpty
  | c :: rest => pfx pat (c :: rest) || occursL pat rest

/-- Python `s.replace(old, new)`: replace all non-overlapping occurrences,
scanning left to right. -/
def replaceL (old new : List Char) : List Char → List Char
  | [] => []
  | c :: rest =>
      if pfx old (c :: rest) ∧ 0 < old.length then
        new ++ replaceL old new (List.drop old.length (c :: rest))
      else c :: replaceL old new rest
termination_by s => s.length
decreasing_by all_goals (simp_wf <;> omega)

/-- Line 362: `line.strip().startswith(("MemoryMax=", "MemoryHigh="))`. -/
def memoryDirectiveLine (line : String) : Bool :=
  pyStartswith (pyStrip line) "MemoryMax=" ||
  pyStartswith (pyStrip line) "MemoryHigh="

/-- Lines 349-375: compute the limits from the detected total memory, drop
pre-existing `MemoryMax=`/`MemoryHigh=` lines, and splice the two new
directives in after every occurrence of `"[Service]"` via `str.replace`.
`none` models the warn-and-skip paths (zero total, no `[Service]`). -/
def configureMemoryLimits (total_mem_mb : Nat) (content : String) :
    Option String :=
  if 0 < total_mem_mb then
    let memory_max := toString (total_mem_mb * 80 / 100) ++ "M"
    let memory_high := toString (total_mem_mb * 75 / 100) ++ "M"
    let lines := (pySplitlines content).filter
      (fun line => !(memoryDirectiveLine line))
    let content2 := joinNL lines
    if occursL "[Service]".data content2.data then
      some (String.mk (replaceL "[Service]".data
        ("[Service]\nMemoryMax=" ++ memory_max
          ++ "\nMemoryHigh=" ++ memory_high).data
        content2.data))
    else none
  else none

/-! ### Service enable/restart retry loops (lines 391-423) -/

/-- An observable effect of the service phase: a `log` call or a
`time.sleep` call. -/
inductive Event where
  | log (msg : String)
  | sleep (seconds : Nat)
  deriving DecidableEq

/-- One retry loop (lines 396-407 and 410-421).  `cmdResult attempt` is the
outcome of the subprocess call on that attempt: `none` for exit status 0,
`some e` for the text of the `CalledProcessError`.  Returns whether the
command eventually succeeded together with the emitted events. -/
def retryFrom (cmdResult : Nat → Option String) (failLabel successMsg exhaustLabel : String)
    (max_retries retry_delay : Nat) (attempt : Nat) : Bool × List Event :=
  match cmdResult attempt with
  | none => (true, [Event.log successMsg])
  | some e =>
      let failMsg := Event.log (failLabel ++ " attempt " ++ toString attempt
        ++ "/" ++ toString max_retries ++ " failed: " ++ e)
      if attempt < max_retries then
        let next := retryFrom cmdResult failLabel successMsg exhaustLabel
          max_retries retry_delay (attempt + 1)
        (next.1, failMsg
          :: Event.log ("Retrying in " ++ toString retry_delay ++ " seconds...")
          :: Event.sleep retry_delay :: next.2)
      else
        (false, [failMsg,
          Event.log ("Warning: All " ++ exhaustLabel ++ " attempts failed")])
termination_by max_retries + 1 - attempt
decreasing_by simp_wf; omega

/-- Lines 391-399: `max_retries = 10`, `retry_delay = 5`, enable loop. -/
def enableLoop (cmdResult : Nat → Option String) : Bool × List Event :=
  retryFrom cmdResult "Enable" "Gateway service enabled!" "enable" 10 5 1

/-- Lines 409-421: the restart loop, identical policy. -/
def restartLoop (cmdResult : Nat → Option String) : Bool × List Event :=
  retryFrom cmdResult "Start" "Gateway service started!" "start" 10 5 1

/-- Lines 395-423: both loops in sequence followed by the completion banner;
neither loop's exhaustion stops the run. -/
def serviceLoops (enableRes restartRes : Nat → Option String) : List Event :=
  Event.log "Enabling gateway service..." :: (enableLoop enableRes).2
  ++ Event.log "Starting gateway service..." :: (restartLoop restartRes).2
  ++ [Event.log "========== setup-openclaw.py completed =========="]

/-! ### Basic association-list lemmas -/

@[simp] theorem getKey_setKey_self (d : Dict) (k : String) (v : J) :
    getKey (setKey d k v) k = some v := by
  induction d with
  | nil => simp [setKey, getKey]
  | cons p rest ih =>
      obtain ⟨k', w⟩ := p
      by_cases h : k' = k <;> simp [setKey, getKey, h, ih]

theorem getKey_setKey_ne (d : Dict) {k k' : String} (h : k' ≠ k) (v : J) :
    getKey (setKey d k v) k' = getKey d k' := by
  induction d with
  | nil => simp [setKey, getKey, Ne.symm h]
  | cons p rest ih =>
      obtain ⟨k₀, w⟩ := p
      by_cases h₀ : k₀ = k
      · subst h₀
        simp [setKey, getKey, Ne.symm h]
      · by_cases h₁ : k₀ = k' <;>
          simp [setKey, getKey, h₀, h₁, h, Ne.symm h, ih]

@[simp] theorem hasKey_setKey_self (d : Dict) (k : String) (v : J) :
    hasKey (setKey d k v) k = true := by
  simp [hasKey]

theorem getKey_ensureKeyDict_ne (d : Dict) {k k' : String} (h : k' ≠ k) :
    getKey (ensureKeyDict d k) k' = getKey d k' := by
  unfold ensureKeyDict
  by_cases hh : hasKey d k <;> simp [hh, getKey_setKey_ne d h]

theorem getKey_ensureKeyDict_self (d : Dict) (k : String) :
    getKey (ensureKeyDict d k) k = some ((getKey d k).getD (J.obj [])) := by
  unfold ensureKeyDict hasKey
  cases h : getKey d k <;> simp [h]

@[simp] theorem hasKey_ensureKeyDict_self (d : Dict) (k : String) :
    hasKey (ensureKeyDict d k) k = true := by
  simp [hasKey, getKey_ensureKeyDict_self]

theorem hasKey_ensureKeyDict_ne (d : Dict) {k k' : String} (h : k' ≠ k) :
    hasKey (ensureKeyDict d k) k' = hasKey d k' := by
  simp [hasKey, getKey_ensureKeyDict_ne d h]

theorem hasKey_setKey_ne (d : Dict) {k k' : String} (h : k' ≠ k) (v : J) :
    hasKey (setKey d k v) k' = hasKey d k' := by
  simp [hasKey, getKey_setKey_ne d h]

theorem getPath_cons_of_getKey_eq {d d' : Dict} {k : String}
    (h : getKey d' k = getKey d k) (p : List String) :
    getPath d' (k :: p) = getPath d (k :: p) := by
  cases p with
  | nil => simpa [getPath] using h
  | cons q qs => simp only [getPath, h]

theorem getObjAt_eq_some {d : Dict} {k : String} {o : Dict}
    (h : getObjAt d k = some o) : getKey d k = some (J.obj o) := by
  unfold getObjAt at h
  cases hg : getKey d k with
  | none => rw [hg] at h; exact absurd h (by simp)
  | some v => cases v <;> rw [hg] at h <;> simp_all

/-! ### Step-level lemmas for the configuration phase -/

theorem optBind_eq_some {α β : Type} {x : Option α} {f : α → Option β} {b : β} :
    (x >>= f) = some b ↔ ∃ a, x = some a ∧ f a = some b := by
  cases x <;> simp

theorem gatewayTokenStep_token {tok : String} {c c' : Dict}
    (h : gatewayTokenStep tok c = some c') :
    getPath c' ["gateway", "auth", "token"] = some (J.s tok) := by
  simp only [gatewayTokenStep, optBind_eq_some, Option.pure_def, Option.some.injEq] at h
  obtain ⟨gw, hgw, auth, hauth, rfl⟩ := h
  simp [getPath, getKey_setKey_self]

theorem gatewayTokenStep_getKey_eq {tok : String} {c c' : Dict}
    (h : gatewayTokenStep tok c = some c') {key : String}
    (h1 : key ≠ "gateway") : getKey c' key = getKey c key := by
  simp only [gatewayTokenStep, optBind_eq_some, Option.pure_def, Option.some.injEq] at h
  obtain ⟨gw, hgw, auth, hauth, rfl⟩ := h
  rw [getKey_setKey_ne _ h1, getKey_ensureKeyDict_ne _ h1]

theorem arkStep_getKey_eq {c : Creds} {site iid : String} {cf cf' : Dict}
    (h : arkStep c site iid cf = some cf') {key : String}
    (h1 : key ≠ "models") (h2 : key ≠ "agents") :
    getKey cf' key = getKey cf key := by
  unfold arkStep at h
  split at h
  · simp only [optBind_eq_some, Option.pure_def, Option.some.injEq] at h
    obtain ⟨base, hbase, ag, hag, df, hdf, rfl⟩ := h
    rw [getKey_setKey_ne _ h2, getKey_ensureKeyDict_ne _ h2,
      getKey_setKey_ne _ h1]
  · simp only [Option.some.injEq] at h
    subst h; rfl

theorem feishuIdStep_getKey_eq {fid : String} {cf cf' : Dict}
    (h : feishuIdStep fid cf = some cf') {key : String}
    (h1 : key ≠ "channels") : getKey cf' key = getKey cf key := by
  unfold feishuIdStep at h
  split at h
  · simp only [optBind_eq_some, Option.pure_def, Option.some.injEq] at h
    obtain ⟨ch, hch, fs, hfs, rfl⟩ := h
    rw [getKey_setKey_ne _ h1]
  · simp only [Option.some.injEq] at h
    subst h; rfl

theorem feishuSecretStep_getKey_eq {fsec : String} {cf cf' : Dict}
    (h : feishuSecretStep fsec cf = some cf') {key : String}
    (h1 : key ≠ "channels") : getKey cf' key = getKey cf key := by
  unfold feishuSecretStep at h
  split at h
  · simp only [optBind_eq_some, Option.pure_def, Option.some.injEq] at h
    obtain ⟨ch, hch, fs, hfs, rfl⟩ := h
    rw [getKey_setKey_ne _ h1]
  · simp only [Option.some.injEq] at h
    subst h; rfl

theorem telegramStep_getKey_eq {tg : String} {cf cf' : Dict}
    (h : telegramStep tg cf = some cf') {key : String}
    (h1 : key ≠ "channels") (h2 : key ≠ "plugins") :
    getKey cf' key = getKey cf key := by
  unfold telegramStep at h
  split at h
  · simp only [optBind_eq_some, Option.pure_def, Option.some.injEq] at h
    obtain ⟨ch, hch, pl, hpl, en, hen, rfl⟩ := h
    rw [getKey_setKey_ne _ h2, getKey_ensureKeyDict_ne _ h2,
      getKey_setKey_ne _ h1]
  · simp only [Option.some.injEq] at h
    subst h; rfl

theorem dingtalkStep_getKey_eq {did dsec : String} {cf cf' : Dict}
    (h : dingtalkStep did dsec cf = some cf') {key : String}
    (h1 : key ≠ "channels") (h2 : key ≠ "gateway") :
    getKey cf' key = getKey cf key := by
  unfold dingtalkStep at h
  split at h
  · simp only [optBind_eq_some, Option.pure_def, Option.some.injEq] at h
    obtain ⟨gw, hgw, auth, hauth, gt, hgt, ch, hch, gw2, hgw2, http, hhttp,
      ep, hep, cc, hcc, rfl⟩ := h
    rw [getKey_setKey_ne _ h2, getKey_ensureKeyDict_ne _ h2,
      getKey_setKey_ne _ h1]
  · simp only [Option.some.injEq] at h
    subst h; rfl

theorem wecomStep_getKey_eq {wt waes : String} {cf cf' : Dict}
    (h : wecomStep wt waes cf = some cf') {key : String}
    (h1 : key ≠ "channels") (h2 : key ≠ "gateway") :
    getKey cf' key = getKey cf key := by
  unfold wecomStep at h
  split at h
  · simp only [optBind_eq_some, Option.pure_def, Option.some.injEq] at h
    obtain ⟨ch, hch, gw, hgw, cu, hcu, http, hhttp, ep, hep, cc, hcc, rfl⟩ := h
    rw [getKey_setKey_ne _ h2, getKey_ensureKeyDict_ne _ h2,
      getKey_setKey_ne _ h1]
  · simp only [Option.some.injEq] at h
    subst h; rfl

theorem metaStep_getKey_eq {now : String} {cf cf' : Dict}
    (h : metaStep now cf = some cf') {key : String}
    (h1 : key ≠ "meta") : getKey cf' key = getKey cf key := by
  simp only [metaStep, optBind_eq_some, Option.pure_def, Option.some.injEq] at h
  obtain ⟨mt, hmt, rfl⟩ := h
  rw [getKey_setKey_ne _ h1, getKey_ensureKeyDict_ne _ h1]

theorem metaStep_value {now : String} {cf cf' : Dict}
    (h : metaStep now cf = some cf') :
    getPath cf' ["meta", "lastTouchedAt"] = some (J.s now) := by
  simp only [metaStep, optBind_eq_some, Option.pure_def, Option.some.injEq] at h
  obtain ⟨mt, hmt, rfl⟩ := h
  simp [getPath, getKey_setKey_self]

theorem getPath_cons_cons {d d' : Dict} {k1 k2 : String} {o : Dict} (o' : Dict)
    (h1 : getKey d k1 = some (J.obj o)) (h2 : getKey d' k1 = some (J.obj o'))
    (h3 : getKey o' k2 = getKey o k2) (p : List String) :
    getPath d' (k1 :: k2 :: p) = getPath d (k1 :: k2 :: p) := by
  simp only [getPath, h1, h2]
  exact getPath_cons_of_getKey_eq h3 p

theorem getPath_nil_cons (k : String) (p : List String) :
    getPath [] (k :: p) = none := by
  cases p <;> simp [getPath, getKey]

theorem getObjAt_ensureKeyDict_cases {d : Dict} {k : String} {o : Dict}
    (h : getObjAt (ensureKeyDict d k) k = some o) :
    (getKey d k = none ∧ o = []) ∨ getKey d k = some (J.obj o) := by
  have h' := getObjAt_eq_some h
  rw [getKey_ensureKeyDict_self] at h'
  cases hd : getKey d k with
  | none => left; rw [hd] at h'; simp at h'; exact ⟨rfl, h'⟩
  | some v => right; rw [hd] at h'; simp at h'; rw [h']

theorem getObjAt_of_getKey {d : Dict} {k : String} {o o' : Dict}
    (h1 : getKey d k = some (J.obj o)) (h2 : getObjAt d k = some o') :
    o' = o := by
  unfold getObjAt at h2
  rw [h1] at h2
  simpa using h2.symm

/-- `feishuIdStep` only touches `channels.feishu`. -/
theorem feishuIdStep_channels_ne {fid : String} {cf cf' : Dict}
    (h : feishuIdStep fid cf = some cf') {name : String}
    (hn : name ≠ "feishu") (p : List String) :
    getPath cf' ("channels" :: name :: p) = getPath cf ("channels" :: name :: p) := by
  unfold feishuIdStep at h
  split at h
  · simp only [optBind_eq_some, Option.pure_def, Option.some.injEq] at h
    obtain ⟨ch, hch, fs, hfs, rfl⟩ := h
    refine getPath_cons_cons _ (getObjAt_eq_some hch) (getKey_setKey_self _ _ _) ?_ p
    rw [getKey_setKey_ne _ hn, getKey_ensureKeyDict_ne _ hn]
  · simp only [Option.some.injEq] at h; subst h; rfl

theorem feishuSecretStep_channels_ne {fsec : String} {cf cf' : Dict}
    (h : feishuSecretStep fsec cf = some cf') {name : String}
    (hn : name ≠ "feishu") (p : List String) :
    getPath cf' ("channels" :: name :: p) = getPath cf ("channels" :: name :: p) := by
  unfold feishuSecretStep at h
  split at h
  · simp only [optBind_eq_some, Option.pure_def, Option.some.injEq] at h
    obtain ⟨ch, hch, fs, hfs, rfl⟩ := h
    refine getPath_cons_cons _ (getObjAt_eq_some hch) (getKey_setKey_self _ _ _) ?_ p
    rw [getKey_setKey_ne _ hn, getKey_ensureKeyDict_ne _ hn]
  · simp only [Option.some.injEq] at h; subst h; rfl

theorem telegramStep_channels_ne {tg : String} {cf cf' : Dict}
    (h : telegramStep tg cf = some cf') {name : String}
    (hn : name ≠ "telegram") (p : List String) :
    getPath cf' ("channels" :: name :: p) = getPath cf ("channels" :: name :: p) := by
  unfold telegramStep at h
  split at h
  · simp only [optBind_eq_some, Option.pure_def, Option.some.injEq] at h
    obtain ⟨ch, hch, pl, hpl, en, hen, rfl⟩ := h
    refine getPath_cons_cons (setKey ch "telegram" (telegramChannelObj tg))
      (getObjAt_eq_some hch) ?_ ?_ p
    · rw [getKey_setKey_ne _ (by decide : ("channels" : String) ≠ "plugins"),
        getKey_ensureKeyDict_ne _ (by decide : ("channels" : String) ≠ "plugins"),
        getKey_setKey_self]
    · rw [getKey_setKey_ne _ hn]
  · simp only [Option.some.injEq] at h; subst h; rfl

theorem dingtalkStep_channels_ne {did dsec : String} {cf cf' : Dict}
    (h : dingtalkStep did dsec cf = some cf') {name : String}
    (hn : name ≠ "dingtalk-connector") (p : List String) :
    getPath cf' ("channels" :: name :: p) = getPath cf ("channels" :: name :: p) := by
  unfold dingtalkStep at h
  split at h
  · simp only [optBind_eq_some, Option.pure_def, Option.some.injEq] at h
    obtain ⟨gw, hgw, auth, hauth, gt, hgt, ch, hch, gw2, hgw2, http, hhttp,
      ep, hep, cc, hcc, rfl⟩ := h
    refine getPath_cons_cons
      (setKey ch "dingtalk-connector" (dingtalkChannelObj did dsec gt))
      (getObjAt_eq_some hch) ?_ ?_ p
    · rw [getKey_setKey_ne _ (by decide : ("channels" : String) ≠ "gateway"),
        getKey_ensureKeyDict_ne _ (by decide : ("channels" : String) ≠ "gateway"),
        getKey_setKey_self]
    · rw [getKey_setKey_ne _ hn]
  · simp only [Option.some.injEq] at h; subst h; rfl

theorem wecomStep_channels_ne {wt waes : String} {cf cf' : Dict}
    (h : wecomStep wt waes cf = some cf') {name : String}
    (hn : name ≠ "wecom") (p : List String) :
    getPath cf' ("channels" :: name :: p) = getPath cf ("channels" :: name :: p) := by
  unfold wecomStep at h
  split at h
  · simp only [optBind_eq_some, Option.pure_def, Option.some.injEq] at h
    obtain ⟨ch, hch, gw, hgw, cu, hcu, http, hhttp, ep, hep, cc, hcc, rfl⟩ := h
    refine getPath_cons_cons (setKey ch "wecom" (wecomChannelObj wt waes))
      (getObjAt_eq_some hch) ?_ ?_ p
    · rw [getKey_setKey_ne _ (by decide : ("channels" : String) ≠ "gateway"),
        getKey_ensureKeyDict_ne _ (by decide : ("channels" : String) ≠ "gateway"),
        getKey_setKey_self]
    · rw [getKey_setKey_ne _ hn]
  · simp only [Option.some.injEq] at h; subst h; rfl

theorem getPath_cons_none {d : Dict} {k : String} (p : List String)
    (h : getKey d k = none) : getPath d (k :: p) = none := by
  cases p <;> simp [getPath, h]

/-- `dingtalkStep` leaves `gateway.auth` (and everything under it) alone. -/
theorem dingtalkStep_gateway_auth {did dsec : String} {cf cf' : Dict}
    (h : dingtalkStep did dsec cf = some cf') (p : List String) :
    getPath cf' ("gateway" :: "auth" :: p) = getPath cf ("gateway" :: "auth" :: p) := by
  unfold dingtalkStep at h
  split at h
  · simp only [optBind_eq_some, Option.pure_def, Option.some.injEq] at h
    obtain ⟨gw, hgw, auth, hauth, gt, hgt, ch, hch, gw2, hgw2, http, hhttp,
      ep, hep, cc, hcc, rfl⟩ := h
    have hgwk := getObjAt_eq_some hgw
    have hY : getKey (setKey cf "channels"
        (J.obj (setKey ch "dingtalk-connector" (dingtalkChannelObj did dsec gt))))
        "gateway" = some (J.obj gw) := by
      rw [getKey_setKey_ne _ (by decide : ("gateway" : String) ≠ "channels")]
      exact hgwk
    have hgw2eq : gw2 = gw := by
      refine getObjAt_of_getKey ?_ hgw2
      rw [getKey_ensureKeyDict_self, hY]; rfl
    subst hgw2eq
    refine getPath_cons_cons _ hgwk (getKey_setKey_self _ _ _) ?_ p
    rw [getKey_setKey_ne _ (by decide : ("auth" : String) ≠ "http"),
      getKey_ensureKeyDict_ne _ (by decide : ("auth" : String) ≠ "http")]
  · simp only [Option.some.injEq] at h; subst h; rfl

/-- `wecomStep` leaves `gateway.auth` (and everything under it) alone. -/
theorem wecomStep_gateway_auth {wt waes : String} {cf cf' : Dict}
    (h : wecomStep wt waes cf = some cf') (p : List String) :
    getPath cf' ("gateway" :: "auth" :: p) = getPath cf ("gateway" :: "auth" :: p) := by
  unfold wecomStep at h
  split at h
  · simp only [optBind_eq_some, Option.pure_def, Option.some.injEq] at h
    obtain ⟨ch, hch, gw, hgw, cu, hcu, http, hhttp, ep, hep, cc, hcc, rfl⟩ := h
    have hauthEq : ∀ v, getKey (setKey (ensureKeyDict (setKey
        (ensureKeyDict (setKey gw "bind" (J.s "lan")) "controlUi") "controlUi"
        (J.obj (setKey (setKey cu "enabled" (J.b true)) "allowInsecureAuth"
          (J.b true)))) "http") "http" v) "auth" = getKey gw "auth" := by
      intro v
      rw [getKey_setKey_ne _ (by decide : ("auth" : String) ≠ "http"),
        getKey_ensureKeyDict_ne _ (by decide : ("auth" : String) ≠ "http"),
        getKey_setKey_ne _ (by decide : ("auth" : String) ≠ "controlUi"),
        getKey_ensureKeyDict_ne _ (by decide : ("auth" : String) ≠ "controlUi"),
        getKey_setKey_ne _ (by decide : ("auth" : String) ≠ "bind")]
    rcases getObjAt_ensureKeyDict_cases hgw with ⟨hnone, rfl⟩ | hsome
    · rw [getKey_setKey_ne _
        (by decide : ("gateway" : String) ≠ "channels")] at hnone
      rw [getPath_cons_none ("auth" :: p) hnone]
      simp only [getPath, getKey_setKey_self]
      exact getPath_cons_none p (by rw [hauthEq]; rfl)
    · rw [getKey_setKey_ne _
        (by decide : ("gateway" : String) ≠ "channels")] at hsome
      refine getPath_cons_cons _ hsome (getKey_setKey_self _ _ _) ?_ p
      exact hauthEq _
  · simp only [Option.some.injEq] at h; subst h; rfl

/-- `telegramStep` installs the whole telegram block. -/
theorem telegramStep_value {tg : String} {cf cf' : Dict}
    (h : telegramStep tg cf = some cf') (htg : tg ≠ "") :
    getPath cf' ["channels", "telegram"] = some (telegramChannelObj tg) := by
  unfold telegramStep at h
  split at h
  · simp only [optBind_eq_some, Option.pure_def, Option.some.injEq] at h
    obtain ⟨ch, hch, pl, hpl, en, hen, rfl⟩ := h
    have h1 : getKey (setKey (ensureKeyDict (setKey cf "channels"
        (J.obj (setKey ch "telegram" (telegramChannelObj tg)))) "plugins")
        "plugins" (J.obj (setKey (ensureKeyDict pl "entries") "entries"
          (J.obj (setKey en "telegram" (J.obj [("enabled", J.b true)]))))))
        "channels" = some (J.obj (setKey ch "telegram" (telegramChannelObj tg))) := by
      rw [getKey_setKey_ne _ (by decide : ("channels" : String) ≠ "plugins"),
        getKey_ensureKeyDict_ne _ (by decide : ("channels" : String) ≠ "plugins"),
        getKey_setKey_self]
    simp [getPath, h1, getKey_setKey_self]
  · next hcond => exact absurd (not_not.mp hcond) htg

/-- `dingtalkStep` installs the whole dingtalk-connector block, embedding the
token found at `gateway.auth.token`. -/
theorem dingtalkStep_value {did dsec : String} {cf cf' : Dict}
    (h : dingtalkStep did dsec cf = some cf') (hid : did ≠ "") (hsec : dsec ≠ "") :
    ∃ gt, getPath cf ["gateway", "auth", "token"] = some gt ∧
      getPath cf' ["channels", "dingtalk-connector"]
        = some (dingtalkChannelObj did dsec gt) := by
  unfold dingtalkStep at h
  split at h
  · simp only [optBind_eq_some, Option.pure_def, Option.some.injEq] at h
    obtain ⟨gw, hgw, auth, hauth, gt, hgt, ch, hch, gw2, hgw2, http, hhttp,
      ep, hep, cc, hcc, rfl⟩ := h
    refine ⟨gt, ?_, ?_⟩
    · simp [getPath, getObjAt_eq_some hgw, getObjAt_eq_some hauth, hgt]
    · have h1 : getKey (setKey (ensureKeyDict (setKey cf "channels"
          (J.obj (setKey ch "dingtalk-connector"
            (dingtalkChannelObj did dsec gt)))) "gateway") "gateway"
          (J.obj (setKey (ensureKeyDict gw2 "http") "http"
            (J.obj (setKey (ensureKeyDict http "endpoints") "endpoints"
              (J.obj (setKey (ensureKeyDict ep "chatCompletions")
                "chatCompletions" (J.obj (setKey cc "enabled" (J.b true))))))))))
          "channels"
          = some (J.obj (setKey ch "dingtalk-connector"
              (dingtalkChannelObj did dsec gt))) := by
        rw [getKey_setKey_ne _ (by decide : ("channels" : String) ≠ "gateway"),
          getKey_ensureKeyDict_ne _ (by decide : ("channels" : String) ≠ "gateway"),
          getKey_setKey_self]
      simp [getPath, h1, getKey_setKey_self]
  · next hcond =>
      exact absurd ⟨hid, hsec⟩ hcond

/-- `wecomStep` installs the whole wecom block, whatever the AES key length. -/
theorem wecomStep_value {wt waes : String} {cf cf' : Dict}
    (h : wecomStep wt waes cf = some cf') (hwt : wt ≠ "") (hwa : waes ≠ "") :
    getPath cf' ["channels", "wecom"] = some (wecomChannelObj wt waes) := by
  unfold wecomStep at h
  split at h
  · simp only [optBind_eq_some, Option.pure_def, Option.some.injEq] at h
    obtain ⟨ch, hch, gw, hgw, cu, hcu, http, hhttp, ep, hep, cc, hcc, rfl⟩ := h
    have h1 : getKey (setKey (ensureKeyDict (setKey cf "channels"
        (J.obj (setKey ch "wecom" (wecomChannelObj wt waes)))) "gateway")
        "gateway" (J.obj (setKey (ensureKeyDict (setKey (ensureKeyDict
          (setKey gw "bind" (J.s "lan")) "controlUi") "controlUi"
          (J.obj (setKey (setKey cu "enabled" (J.b true)) "allowInsecureAuth"
            (J.b true)))) "http") "http" (J.obj (setKey
            (ensureKeyDict http "endpoints") "endpoints"
            (J.obj (setKey (ensureKeyDict ep "chatCompletions")
              "chatCompletions" (J.obj (setKey cc "enabled" (J.b true))))))))))
        "channels"
        = some (J.obj (setKey ch "wecom" (wecomChannelObj wt waes))) := by
      rw [getKey_setKey_ne _ (by decide : ("channels" : String) ≠ "gateway"),
        getKey_ensureKeyDict_ne _ (by decide : ("channels" : String) ≠ "gateway"),
        getKey_setKey_self]
    simp [getPath, h1, getKey_setKey_self]
  · next hcond =>
      exact absurd ⟨hwt, hwa⟩ hcond

/-- `feishuIdStep` writes exactly the `appId` field. -/
theorem feishuIdStep_value {fid : String} {cf cf' : Dict}
    (h : feishuIdStep fid cf = some cf') (hid : fid ≠ "") :
    getPath cf' ["channels", "feishu", "appId"] = some (J.s fid) := by
  unfold feishuIdStep at h
  split at h
  · simp only [optBind_eq_some, Option.pure_def, Option.some.injEq] at h
    obtain ⟨ch, hch, fs, hfs, rfl⟩ := h
    simp [getPath, getKey_setKey_self]
  · next hcond => exact absurd (not_not.mp hcond) hid

/-- `feishuSecretStep` writes exactly the `appSecret` field. -/
theorem feishuSecretStep_value {fsec : String} {cf cf' : Dict}
    (h : feishuSecretStep fsec cf = some cf') (hsec : fsec ≠ "") :
    getPath cf' ["channels", "feishu", "appSecret"] = some (J.s fsec) := by
  unfold feishuSecretStep at h
  split at h
  · simp only [optBind_eq_some, Option.pure_def, Option.some.injEq] at h
    obtain ⟨ch, hch, fs, hfs, rfl⟩ := h
    simp [getPath, getKey_setKey_self]
  · next hcond => exact absurd (not_not.mp hcond) hsec

/-- `feishuIdStep` touches no field of `channels.feishu` other than `appId`. -/
theorem feishuIdStep_feishu_ne {fid : String} {cf cf' : Dict}
    (h : feishuIdStep fid cf = some cf') {k : String} (hk : k ≠ "appId")
    (p : List String) :
    getPath cf' ("channels" :: "feishu" :: k :: p)
      = getPath cf ("channels" :: "feishu" :: k :: p) := by
  unfold feishuIdStep at h
  split at h
  · simp only [optBind_eq_some, Option.pure_def, Option.some.injEq] at h
    obtain ⟨ch, hch, fs, hfs, rfl⟩ := h
    have hch' := getObjAt_eq_some hch
    simp only [getPath, getKey_setKey_self, hch']
    rcases getObjAt_ensureKeyDict_cases hfs with ⟨hnone, rfl⟩ | hsome
    · have hL : getKey (setKey ([] : Dict) "appId" (J.s fid)) k = none := by
        rw [getKey_setKey_ne _ hk]; rfl
      simp [hnone, getPath_cons_none p hL]
    · simp only [hsome]
      exact getPath_cons_of_getKey_eq (getKey_setKey_ne _ hk _) p
  · simp only [Option.some.injEq] at h; subst h; rfl

/-- `feishuSecretStep` touches no field of `channels.feishu` other than
`appSecret`. -/
theorem feishuSecretStep_feishu_ne {fsec : String} {cf cf' : Dict}
    (h : feishuSecretStep fsec cf = some cf') {k : String} (hk : k ≠ "appSecret")
    (p : List String) :
    getPath cf' ("channels" :: "feishu" :: k :: p)
      = getPath cf ("channels" :: "feishu" :: k :: p) := by
  unfold feishuSecretStep at h
  split at h
  · simp only [optBind_eq_some, Option.pure_def, Option.some.injEq] at h
    obtain ⟨ch, hch, fs, hfs, rfl⟩ := h
    have hch' := getObjAt_eq_some hch
    simp only [getPath, getKey_setKey_self, hch']
    rcases getObjAt_ensureKeyDict_cases hfs with ⟨hnone, rfl⟩ | hsome
    · have hL : getKey (setKey ([] : Dict) "appSecret" (J.s fsec)) k = none := by
        rw [getKey_setKey_ne _ hk]; rfl
      simp [hnone, getPath_cons_none p hL]
    · simp only [hsome]
      exact getPath_cons_of_getKey_eq (getKey_setKey_ne _ hk _) p
  · simp only [Option.some.injEq] at h; subst h; rfl

theorem getPath_ensure_inner (d : Dict) (k q : String) (p : List String) :
    getPath (ensureKeyDict d k) (k :: q :: p) = getPath d (k :: q :: p) := by
  unfold ensureKeyDict
  by_cases hh : hasKey d k
  · simp [hh]
  · have hnone : getKey d k = none := by
      cases hg : getKey d k with
      | none => rfl
      | some v => rw [hasKey, hg] at hh; simp at hh
    simp only [hh, if_false, Bool.false_eq_true]
    simp only [getPath, getKey_setKey_self, hnone]
    rw [getPath_nil_cons]

/-- After any of the channel steps, `channels` is either untouched or bound
to a dict. -/
theorem feishuIdStep_channels_shape {fid : String} {cf cf' : Dict}
    (h : feishuIdStep fid cf = some cf') :
    getKey cf' "channels" = getKey cf "channels" ∨
      ∃ y, getKey cf' "channels" = some (J.obj y) := by
  unfold feishuIdStep at h
  split at h
  · simp only [optBind_eq_some, Option.pure_def, Option.some.injEq] at h
    obtain ⟨ch, hch, fs, hfs, rfl⟩ := h
    exact Or.inr ⟨_, getKey_setKey_self _ _ _⟩
  · simp only [Option.some.injEq] at h; subst h; exact Or.inl rfl

theorem feishuSecretStep_channels_shape {fsec : String} {cf cf' : Dict}
    (h : feishuSecretStep fsec cf = some cf') :
    getKey cf' "channels" = getKey cf "channels" ∨
      ∃ y, getKey cf' "channels" = some (J.obj y) := by
  unfold feishuSecretStep at h
  split at h
  · simp only [optBind_eq_some, Option.pure_def, Option.some.injEq] at h
    obtain ⟨ch, hch, fs, hfs, rfl⟩ := h
    exact Or.inr ⟨_, getKey_setKey_self _ _ _⟩
  · simp only [Option.some.injEq] at h; subst h; exact Or.inl rfl

theorem telegramStep_channels_shape {tg : String} {cf cf' : Dict}
    (h : telegramStep tg cf = some cf') :
    getKey cf' "channels" = getKey cf "channels" ∨
      ∃ y, getKey cf' "channels" = some (J.obj y) := by
  unfold telegramStep at h
  split at h
  · simp only [optBind_eq_some, Option.pure_def, Option.some.injEq] at h
    obtain ⟨ch, hch, pl, hpl, en, hen, rfl⟩ := h
    refine Or.inr ⟨setKey ch "telegram" (telegramChannelObj tg), ?_⟩
    rw [getKey_setKey_ne _ (by decide : ("channels" : String) ≠ "plugins"),
      getKey_ensureKeyDict_ne _ (by decide : ("channels" : String) ≠ "plugins"),
      getKey_setKey_self]
  · simp only [Option.some.injEq] at h; subst h; exact Or.inl rfl

theorem dingtalkStep_channels_shape {did dsec : String} {cf cf' : Dict}
    (h : dingtalkStep did dsec cf = some cf') :
    getKey cf' "channels" = getKey cf "channels" ∨
      ∃ y, getKey cf' "channels" = some (J.obj y) := by
  unfold dingtalkStep at h
  split at h
  · simp only [optBind_eq_some, Option.pure_def, Option.some.injEq] at h
    obtain ⟨gw, hgw, auth, hauth, gt, hgt, ch, hch, gw2, hgw2, http, hhttp,
      ep, hep, cc, hcc, rfl⟩ := h
    refine Or.inr
      ⟨setKey ch "dingtalk-connector" (dingtalkChannelObj did dsec gt), ?_⟩
    rw [getKey_setKey_ne _ (by decide : ("channels" : String) ≠ "gateway"),
      getKey_ensureKeyDict_ne _ (by decide : ("channels" : String) ≠ "gateway"),
      getKey_setKey_self]
  · simp only [Option.some.injEq] at h; subst h; exact Or.inl rfl

theorem wecomStep_channels_shape {wt waes : String} {cf cf' : Dict}
    (h : wecomStep wt waes cf = some cf') :
    getKey cf' "channels" = getKey cf "channels" ∨
      ∃ y, getKey cf' "channels" = some (J.obj y) := by
  unfold wecomStep at h
  split at h
  · simp only [optBind_eq_some, Option.pure_def, Option.some.injEq] at h
    obtain ⟨ch, hch, gw, hgw, cu, hcu, http, hhttp, ep, hep, cc, hcc, rfl⟩ := h
    refine Or.inr ⟨setKey ch "wecom" (wecomChannelObj wt waes), ?_⟩
    rw [getKey_setKey_ne _ (by decide : ("channels" : String) ≠ "gateway"),
      getKey_ensureKeyDict_ne _ (by decide : ("channels" : String) ≠ "gateway"),
      getKey_setKey_self]
  · simp only [Option.some.injEq] at h; subst h; exact Or.inl rfl

/-! ### Composed facts about the whole configuration transformation -/

/-- The token written at lines 144-150 survives to the saved document:
whatever the credentials and the prior configuration, a completed run stores
exactly the fresh token at `gateway.auth.token`. -/
theorem runFromCreds_token {c : Creds} {prior : Option J}
    {site iid now : String} {bytes : List Nat} {cf : Dict}
    (h : runFromCreds c prior site iid bytes now = some cf) :
    getPath cf ["gateway", "auth", "token"] = some (J.s (token_hex bytes)) := by
  unfold runFromCreds at h
  simp only [optBind_eq_some, Option.pure_def, Option.some.injEq] at h
  obtain ⟨cfg0, h0, cfg1, h1, cfg2, h2, cfg3, h3, cfg4, h4, cfg5, h5,
    cfg6, h6, cfg7, h7, hm⟩ := h
  rw [getPath_cons_of_getKey_eq
        (metaStep_getKey_eq hm (by decide : ("gateway" : String) ≠ "meta")) _,
    wecomStep_gateway_auth h7 ["token"],
    dingtalkStep_gateway_auth h6 ["token"],
    getPath_cons_of_getKey_eq (telegramStep_getKey_eq h5
      (by decide : ("gateway" : String) ≠ "channels")
      (by decide : ("gateway" : String) ≠ "plugins")) _,
    getPath_cons_of_getKey_eq (feishuSecretStep_getKey_eq h4
      (by decide : ("gateway" : String) ≠ "channels")) _,
    getPath_cons_of_getKey_eq (feishuIdStep_getKey_eq h3
      (by decide : ("gateway" : String) ≠ "channels")) _,
    getPath_cons_of_getKey_eq (getKey_ensureKeyDict_ne cfg2
      (by decide : ("gateway" : String) ≠ "channels")) _,
    getPath_cons_of_getKey_eq (arkStep_getKey_eq h2
      (by decide : ("gateway" : String) ≠ "models")
      (by decide : ("gateway" : String) ≠ "agents")) _]
  exact gatewayTokenStep_token h1

/-- A completed run always leaves a top-level `channels` key (created at
lines 199-200 when absent). -/
theorem runFromCreds_channels_present {c : Creds} {prior : Option J}
    {site iid now : String} {bytes : List Nat} {cf : Dict}
    (h : runFromCreds c prior site iid bytes now = some cf) :
    hasKey cf "channels" = true := by
  unfold runFromCreds at h
  simp only [optBind_eq_some, Option.pure_def, Option.some.injEq] at h
  obtain ⟨cfg0, h0, cfg1, h1, cfg2, h2, cfg3, h3, cfg4, h4, cfg5, h5,
    cfg6, h6, cfg7, h7, hm⟩ := h
  have step : ∀ {a b : Dict},
      (getKey b "channels" = getKey a "channels" ∨
        ∃ y, getKey b "channels" = some (J.obj y)) →
      (∃ v, getKey a "channels" = some v) → ∃ v, getKey b "channels" = some v := by
    rintro a b (heq | ⟨y, hy⟩) ⟨v, hv⟩
    · exact ⟨v, heq.trans hv⟩
    · exact ⟨_, hy⟩
  have hch : ∃ v, getKey (ensureKeyDict cfg2 "channels") "channels" = some v :=
    ⟨_, getKey_ensureKeyDict_self cfg2 "channels"⟩
  have h7' := step (wecomStep_channels_shape h7)
    (step (dingtalkStep_channels_shape h6)
      (step (telegramStep_channels_shape h5)
        (step (feishuSecretStep_channels_shape h4)
          (step (feishuIdStep_channels_shape h3) hch))))
  obtain ⟨v, hv⟩ := h7'
  have hfin : getKey cf "channels" = some v := by
    rw [metaStep_getKey_eq hm (by decide : ("channels" : String) ≠ "meta")]
    exact hv
  simp [hasKey, hfin]

/-- When the prior document's `channels` value (if any) is a dict, the saved
document binds `channels` to a dict. -/
theorem runFromCreds_channels_obj {c : Creds} {prior : Option J}
    {site iid now : String} {bytes : List Nat} {cf : Dict}
    (h : runFromCreds c prior site iid bytes now = some cf)
    (hprior : ∀ o v, prior = some (J.obj o) → getKey o "channels" = some v →
      ∃ y, v = J.obj y) :
    ∃ y, getKey cf "channels" = some (J.obj y) := by
  unfold runFromCreds at h
  simp only [optBind_eq_some, Option.pure_def, Option.some.injEq] at h
  obtain ⟨cfg0, h0, cfg1, h1, cfg2, h2, cfg3, h3, cfg4, h4, cfg5, h5,
    cfg6, h6, cfg7, h7, hm⟩ := h
  have step : ∀ {a b : Dict},
      (getKey b "channels" = getKey a "channels" ∨
        ∃ y, getKey b "channels" = some (J.obj y)) →
      (∃ y, getKey a "channels" = some (J.obj y)) →
      ∃ y, getKey b "channels" = some (J.obj y) := by
    rintro a b (heq | ⟨y, hy⟩) ⟨y', hy'⟩
    · exact ⟨y', heq.trans hy'⟩
    · exact ⟨_, hy⟩
  have hcfg0 : ∀ v, getKey cfg0 "channels" = some v → ∃ y, v = J.obj y := by
    intro v hv
    match prior, h0 with
    | none, h0 =>
        simp only [Option.some.injEq] at h0
        subst h0
        simp [getKey] at hv
    | some (J.obj o), h0 =>
        simp only [Option.some.injEq] at h0
        subst h0
        exact hprior _ _ rfl hv
  have hch : ∃ y, getKey (ensureKeyDict cfg2 "channels") "channels"
      = some (J.obj y) := by
    have e2 : getKey cfg2 "channels" = getKey cfg0 "channels" := by
      rw [arkStep_getKey_eq h2 (by decide : ("channels" : String) ≠ "models")
        (by decide : ("channels" : String) ≠ "agents"),
        gatewayTokenStep_getKey_eq h1
          (by decide : ("channels" : String) ≠ "gateway")]
    rw [getKey_ensureKeyDict_self, e2]
    cases hv : getKey cfg0 "channels" with
    | none => exact ⟨[], rfl⟩
    | some v =>
        obtain ⟨y, rfl⟩ := hcfg0 v hv
        exact ⟨y, rfl⟩
  have h7' := step (wecomStep_channels_shape h7)
    (step (dingtalkStep_channels_shape h6)
      (step (telegramStep_channels_shape h5)
        (step (feishuSecretStep_channels_shape h4)
          (step (feishuIdStep_channels_shape h3) hch))))
  obtain ⟨y, hy⟩ := h7'
  refine ⟨y, ?_⟩
  rw [metaStep_getKey_eq hm (by decide : ("channels" : String) ≠ "meta")]
  exact hy

/-- A completed run with a telegram token installs exactly the literal
telegram block. -/
theorem runFromCreds_telegram {c : Creds} {prior : Option J}
    {site iid now : String} {bytes : List Nat} {cf : Dict}
    (h : runFromCreds c prior site iid bytes now = some cf)
    (htg : c.telegram_bot_token ≠ "") :
    getPath cf ["channels", "telegram"]
      = some (telegramChannelObj c.telegram_bot_token) := by
  unfold runFromCreds at h
  simp only [optBind_eq_some, Option.pure_def, Option.some.injEq] at h
  obtain ⟨cfg0, h0, cfg1, h1, cfg2, h2, cfg3, h3, cfg4, h4, cfg5, h5,
    cfg6, h6, cfg7, h7, hm⟩ := h
  rw [getPath_cons_of_getKey_eq
        (metaStep_getKey_eq hm (by decide : ("channels" : String) ≠ "meta")) _,
    wecomStep_channels_ne h7 (by decide : ("telegram" : String) ≠ "wecom") [],
    dingtalkStep_channels_ne h6
      (by decide : ("telegram" : String) ≠ "dingtalk-connector") []]
  exact telegramStep_value h5 htg

/-- A completed run with both dingtalk credentials installs exactly the
literal dingtalk-connector block, embedding the fresh gateway token. -/
theorem runFromCreds_dingtalk {c : Creds} {prior : Option J}
    {site iid now : String} {bytes : List Nat} {cf : Dict}
    (h : runFromCreds c prior site iid bytes now = some cf)
    (hid : c.dingtalk_client_id ≠ "") (hsec : c.dingtalk_client_secret ≠ "") :
    getPath cf ["channels", "dingtalk-connector"]
      = some (dingtalkChannelObj c.dingtalk_client_id c.dingtalk_client_secret
          (J.s (token_hex bytes))) := by
  unfold runFromCreds at h
  simp only [optBind_eq_some, Option.pure_def, Option.some.injEq] at h
  obtain ⟨cfg0, h0, cfg1, h1, cfg2, h2, cfg3, h3, cfg4, h4, cfg5, h5,
    cfg6, h6, cfg7, h7, hm⟩ := h
  obtain ⟨gt, hgt, hval⟩ := dingtalkStep_value h6 hid hsec
  have htok5 : getPath cfg5 ["gateway", "auth", "token"]
      = some (J.s (token_hex bytes)) := by
    rw [getPath_cons_of_getKey_eq (telegramStep_getKey_eq h5
        (by decide : ("gateway" : String) ≠ "channels")
        (by decide : ("gateway" : String) ≠ "plugins")) _,
      getPath_cons_of_getKey_eq (feishuSecretStep_getKey_eq h4
        (by decide : ("gateway" : String) ≠ "channels")) _,
      getPath_cons_of_getKey_eq (feishuIdStep_getKey_eq h3
        (by decide : ("gateway" : String) ≠ "channels")) _,
      getPath_cons_of_getKey_eq (getKey_ensureKeyDict_ne cfg2
        (by decide : ("gateway" : String) ≠ "channels")) _,
      getPath_cons_of_getKey_eq (arkStep_getKey_eq h2
        (by decide : ("gateway" : String) ≠ "models")
        (by decide : ("gateway" : String) ≠ "agents")) _]
    exact gatewayTokenStep_token h1
  have hgteq : gt = J.s (token_hex bytes) :=
    Option.some.inj (hgt.symm.trans htok5)
  subst hgteq
  rw [getPath_cons_of_getKey_eq
        (metaStep_getKey_eq hm (by decide : ("channels" : String) ≠ "meta")) _,
    wecomStep_channels_ne h7
      (by decide : ("dingtalk-connector" : String) ≠ "wecom") []]
  exact hval

/-- A completed run with both wecom credentials installs exactly the literal
wecom block. -/
theorem runFromCreds_wecom {c : Creds} {prior : Option J}
    {site iid now : String} {bytes : List Nat} {cf : Dict}
    (h : runFromCreds c prior site iid bytes now = some cf)
    (hwt : c.wecom_token ≠ "") (hwa : c.wecom_encoding_aes_key ≠ "") :
    getPath cf ["channels", "wecom"]
      = some (wecomChannelObj c.wecom_token c.wecom_encoding_aes_key) := by
  unfold runFromCreds at h
  simp only [optBind_eq_some, Option.pure_def, Option.some.injEq] at h
  obtain ⟨cfg0, h0, cfg1, h1, cfg2, h2, cfg3, h3, cfg4, h4, cfg5, h5,
    cfg6, h6, cfg7, h7, hm⟩ := h
  rw [getPath_cons_of_getKey_eq
        (metaStep_getKey_eq hm (by decide : ("channels" : String) ≠ "meta")) _]
  exact wecomStep_value h7 hwt hwa

/-- A completed run writes the feishu credentials field by field. -/
theorem runFromCreds_feishu_appId {c : Creds} {prior : Option J}
    {site iid now : String} {bytes : List Nat} {cf : Dict}
    (h : runFromCreds c prior site iid bytes now = some cf)
    (hid : c.feishu_app_id ≠ "") :
    getPath cf ["channels", "feishu", "appId"] = some (J.s c.feishu_app_id) := by
  unfold runFromCreds at h
  simp only [optBind_eq_some, Option.pure_def, Option.some.injEq] at h
  obtain ⟨cfg0, h0, cfg1, h1, cfg2, h2, cfg3, h3, cfg4, h4, cfg5, h5,
    cfg6, h6, cfg7, h7, hm⟩ := h
  rw [getPath_cons_of_getKey_eq
        (metaStep_getKey_eq hm (by decide : ("channels" : String) ≠ "meta")) _,
    wecomStep_channels_ne h7 (by decide : ("feishu" : String) ≠ "wecom") ["appId"],
    dingtalkStep_channels_ne h6
      (by decide : ("feishu" : String) ≠ "dingtalk-connector") ["appId"],
    telegramStep_channels_ne h5
      (by decide : ("feishu" : String) ≠ "telegram") ["appId"],
    feishuSecretStep_feishu_ne h4 (by decide : ("appId" : String) ≠ "appSecret") []]
  exact feishuIdStep_value h3 hid

theorem runFromCreds_feishu_appSecret {c : Creds} {prior : Option J}
    {site iid now : String} {bytes : List Nat} {cf : Dict}
    (h : runFromCreds c prior site iid bytes now = some cf)
    (hsec : c.feishu_app_secret ≠ "") :
    getPath cf ["channels", "feishu", "appSecret"]
      = some (J.s c.feishu_app_secret) := by
  unfold runFromCreds at h
  simp only [optBind_eq_some, Option.pure_def, Option.some.injEq] at h
  obtain ⟨cfg0, h0, cfg1, h1, cfg2, h2, cfg3, h3, cfg4, h4, cfg5, h5,
    cfg6, h6, cfg7, h7, hm⟩ := h
  rw [getPath_cons_of_getKey_eq
        (metaStep_getKey_eq hm (by decide : ("channels" : String) ≠ "meta")) _,
    wecomStep_channels_ne h7
      (by decide : ("feishu" : String) ≠ "wecom") ["appSecret"],
    dingtalkStep_channels_ne h6
      (by decide : ("feishu" : String) ≠ "dingtalk-connector") ["appSecret"],
    telegramStep_channels_ne h5
      (by decide : ("feishu" : String) ≠ "telegram") ["appSecret"]]
  exact feishuSecretStep_value h4 hsec

/-- Fields of `channels.feishu` other than `appId` and `appSecret` are carried
over unchanged from the loaded document. -/
theorem runFromCreds_feishu_frame {c : Creds} {o : Dict}
    {site iid now : String} {bytes : List Nat} {cf : Dict}
    (h : runFromCreds c (some (J.obj o)) site iid bytes now = some cf)
    {k : String} (hk1 : k ≠ "appId") (hk2 : k ≠ "appSecret") :
    getPath cf ["channels", "feishu", k] = getPath o ["channels", "feishu", k] := by
  unfold runFromCreds at h
  simp only [optBind_eq_some, Option.pure_def, Option.some.injEq] at h
  obtain ⟨cfg0, h0, cfg1, h1, cfg2, h2, cfg3, h3, cfg4, h4, cfg5, h5,
    cfg6, h6, cfg7, h7, hm⟩ := h
  subst h0
  rw [getPath_cons_of_getKey_eq
        (metaStep_getKey_eq hm (by decide : ("channels" : String) ≠ "meta")) _,
    wecomStep_channels_ne h7 (by decide : ("feishu" : String) ≠ "wecom") [k],
    dingtalkStep_channels_ne h6
      (by decide : ("feishu" : String) ≠ "dingtalk-connector") [k],
    telegramStep_channels_ne h5
      (by decide : ("feishu" : String) ≠ "telegram") [k],
    feishuSecretStep_feishu_ne h4 hk2 [],
    feishuIdStep_feishu_ne h3 hk1 [],
    getPath_ensure_inner cfg2 "channels" "feishu" [k],
    getPath_cons_of_getKey_eq (arkStep_getKey_eq h2
      (by decide : ("channels" : String) ≠ "models")
      (by decide : ("channels" : String) ≠ "agents")) _,
    getPath_cons_of_getKey_eq (gatewayTokenStep_getKey_eq h1
      (by decide : ("channels" : String) ≠ "gateway")) _]

/-! ### The theory of `deep_merge` -/

/-- The value `deep_merge` ends up storing under one key, as a function of
the two sides' values there. -/
def mergeVal : Option J → Option J → Option J
  | x, none => x
  | some (J.obj bo), some (J.obj uo) => some (J.obj (deep_merge bo uo))
  | _, some v => some v

@[simp] theorem mergeVal_none (x : Option J) : mergeVal x none = x := by
  cases x with
  | none => rfl
  | some v => cases v <;> rfl

@[simp] theorem mergeVal_none_some (v : J) : mergeVal none (some v) = some v := rfl

@[simp] theorem mergeVal_obj_obj (bo uo : Dict) :
    mergeVal (some (J.obj bo)) (some (J.obj uo))
      = some (J.obj (deep_merge bo uo)) := rfl

theorem getKey_eq_none_iff {d : Dict} {k : String} :
    getKey d k = none ↔ k ∉ keys d := by
  induction d with
  | nil => simp [getKey, keys]
  | cons p rest ih =>
      obtain ⟨k0, v⟩ := p
      by_cases hk : k0 = k <;> simp [getKey, keys, hk, ih, Ne.symm, eq_comm]

/-- Unfold one step of `deep_merge` when both sides hold a dict. -/
theorem deep_merge_cons_obj {b : Dict} {k : String} {bo : Dict} (vo rest : Dict)
    (hb : getKey b k = some (J.obj bo)) :
    deep_merge b ((k, J.obj vo) :: rest)
      = deep_merge (setKey b k (J.obj (deep_merge bo vo))) rest := by
  rw [deep_merge]; exact hb

/-- Unfold one step of `deep_merge` in the overwrite case. -/
theorem deep_merge_cons_other {b : Dict} {k : String} {v0 : J} (rest : Dict)
    (h : ∀ bo vo, getKey b k = some (J.obj bo) → v0 = J.obj vo → False) :
    deep_merge b ((k, v0) :: rest) = deep_merge (setKey b k v0) rest := by
  rw [deep_merge]; exact h

/-- The per-key characterisation of `deep_merge` (the update dict, coming
from a Python dict, has no duplicate keys). -/
theorem getKey_deep_merge {u : Dict} (hnd : (keys u).Nodup) (b : Dict)
    (k : String) :
    getKey (deep_merge b u) k = mergeVal (getKey b k) (getKey u k) := by
  induction u generalizing b with
  | nil => simp [deep_merge, getKey]
  | cons p rest ih =>
      obtain ⟨k0, v0⟩ := p
      have hnd2 : (k0 :: keys rest).Nodup := hnd
      obtain ⟨hk0, hnd'⟩ := List.nodup_cons.mp hnd2
      by_cases hkk : k = k0
      · subst hkk
        have hrn : getKey rest k = none := getKey_eq_none_iff.mpr hk0
        have hu : getKey ((k, v0) :: rest) k = some v0 := by simp [getKey]
        rw [hu]
        rcases hb : getKey b k with _ | w
        · rw [deep_merge_cons_other rest
              (fun bo vo hbo _ => by rw [hb] at hbo; exact Option.noConfusion hbo),
            ih hnd', hrn, mergeVal_none, getKey_setKey_self]
          rfl
        · cases w with
          | obj bo =>
            cases v0 with
            | obj vo =>
              rw [deep_merge_cons_obj vo rest hb, ih hnd', hrn, mergeVal_none,
                getKey_setKey_self, mergeVal_obj_obj]
            | s a =>
              rw [deep_merge_cons_other rest
                  (fun bo' vo _ hv0 => J.noConfusion hv0),
                ih hnd', hrn, mergeVal_none, getKey_setKey_self]
              rfl
            | i a =>
              rw [deep_merge_cons_other rest
                  (fun bo' vo _ hv0 => J.noConfusion hv0),
                ih hnd', hrn, mergeVal_none, getKey_setKey_self]
              rfl
            | b a =>
              rw [deep_merge_cons_other rest
                  (fun bo' vo _ hv0 => J.noConfusion hv0),
                ih hnd', hrn, mergeVal_none, getKey_setKey_self]
              rfl
            | arr a =>
              rw [deep_merge_cons_other rest
                  (fun bo' vo _ hv0 => J.noConfusion hv0),
                ih hnd', hrn, mergeVal_none, getKey_setKey_self]
              rfl
          | s a =>
            rw [deep_merge_cons_other rest
                (fun bo vo hbo _ => by
                  rw [hb] at hbo; exact J.noConfusion (Option.some.inj hbo)),
              ih hnd', hrn, mergeVal_none, getKey_setKey_self]
            rfl
          | i a =>
            rw [deep_merge_cons_other rest
                (fun bo vo hbo _ => by
                  rw [hb] at hbo; exact J.noConfusion (Option.some.inj hbo)),
              ih hnd', hrn, mergeVal_none, getKey_setKey_self]
            rfl
          | b a =>
            rw [deep_merge_cons_other rest
                (fun bo vo hbo _ => by
                  rw [hb] at hbo; exact J.noConfusion (Option.some.inj hbo)),
              ih hnd', hrn, mergeVal_none, getKey_setKey_self]
            rfl
          | arr a =>
            rw [deep_merge_cons_other rest
                (fun bo vo hbo _ => by
                  rw [hb] at hbo; exact J.noConfusion (Option.some.inj hbo)),
              ih hnd', hrn, mergeVal_none, getKey_setKey_self]
            rfl
      · have hu : getKey ((k0, v0) :: rest) k = getKey rest k := by
          simp [getKey, Ne.symm hkk]
        rw [hu]
        rcases hb : getKey b k0 with _ | w
        · rw [deep_merge_cons_other rest
              (fun bo vo hbo _ => by rw [hb] at hbo; exact Option.noConfusion hbo),
            ih hnd', getKey_setKey_ne _ hkk]
        · cases w with
          | obj bo =>
            cases v0 with
            | obj vo =>
              rw [deep_merge_cons_obj vo rest hb, ih hnd',
                getKey_setKey_ne _ hkk]
            | s a =>
              rw [deep_merge_cons_other rest
                  (fun bo' vo _ hv0 => J.noConfusion hv0),
                ih hnd', getKey_setKey_ne _ hkk]
            | i a =>
              rw [deep_merge_cons_other rest
                  (fun bo' vo _ hv0 => J.noConfusion hv0),
                ih hnd', getKey_setKey_ne _ hkk]
            | b a =>
              rw [deep_merge_cons_other rest
                  (fun bo' vo _ hv0 => J.noConfusion hv0),
                ih hnd', getKey_setKey_ne _ hkk]
            | arr a =>
              rw [deep_merge_cons_other rest
                  (fun bo' vo _ hv0 => J.noConfusion hv0),
                ih hnd', getKey_setKey_ne _ hkk]
          | s a =>
            rw [deep_merge_cons_other rest
                (fun bo vo hbo _ => by
                  rw [hb] at hbo; exact J.noConfusion (Option.some.inj hbo)),
              ih hnd', getKey_setKey_ne _ hkk]
          | i a =>
            rw [deep_merge_cons_other rest
                (fun bo vo hbo _ => by
                  rw [hb] at hbo; exact J.noConfusion (Option.some.inj hbo)),
              ih hnd', getKey_setKey_ne _ hkk]
          | b a =>
            rw [deep_merge_cons_other rest
                (fun bo vo hbo _ => by
                  rw [hb] at hbo; exact J.noConfusion (Option.some.inj hbo)),
              ih hnd', getKey_setKey_ne _ hkk]
          | arr a =>
            rw [deep_merge_cons_other rest
                (fun bo vo hbo _ => by
                  rw [hb] at hbo; exact J.noConfusion (Option.some.inj hbo)),
              ih hnd', getKey_setKey_ne _ hkk]

theorem keys_setKey (d : Dict) (k : String) (v : J) :
    keys (setKey d k v) = if k ∈ keys d then keys d else keys d ++ [k] := by
  induction d with
  | nil => simp [setKey, keys]
  | cons p rest ih =>
      obtain ⟨k0, w⟩ := p
      by_cases hk : k0 = k
      · subst hk; simp [setKey, keys]
      · have h1 : setKey ((k0, w) :: rest) k v = (k0, w) :: setKey rest k v := by
          simp [setKey, hk]
        have h2 : keys ((k0, w) :: setKey rest k v)
            = k0 :: keys (setKey rest k v) := rfl
        have h3 : keys ((k0, w) :: rest) = k0 :: keys rest := rfl
        rw [h1, h2, h3, ih]
        by_cases hm : k ∈ keys rest
        · rw [if_pos hm, if_pos (List.mem_cons_of_mem _ hm)]
        · rw [if_neg hm, if_neg (by simp [hm, Ne.symm hk])]
          rfl

/-- One step of `deep_merge` always assigns some value to the head key. -/
theorem deep_merge_cons_exists (b : Dict) (k0 : String) (v0 : J) (rest : Dict) :
    ∃ X : J, deep_merge b ((k0, v0) :: rest) = deep_merge (setKey b k0 X) rest := by
  rcases hb : getKey b k0 with _ | w
  · exact ⟨v0, deep_merge_cons_other rest
      (fun bo vo hbo _ => by rw [hb] at hbo; exact Option.noConfusion hbo)⟩
  · cases w with
    | obj bo =>
        cases v0 with
        | obj vo => exact ⟨J.obj (deep_merge bo vo), deep_merge_cons_obj vo rest hb⟩
        | s a => exact ⟨_, deep_merge_cons_other rest
            (fun _ _ _ hv => J.noConfusion hv)⟩
        | i a => exact ⟨_, deep_merge_cons_other rest
            (fun _ _ _ hv => J.noConfusion hv)⟩
        | b a => exact ⟨_, deep_merge_cons_other rest
            (fun _ _ _ hv => J.noConfusion hv)⟩
        | arr a => exact ⟨_, deep_merge_cons_other rest
            (fun _ _ _ hv => J.noConfusion hv)⟩
    | s a => exact ⟨v0, deep_merge_cons_other rest (fun bo vo hbo _ => by
        rw [hb] at hbo; exact J.noConfusion (Option.some.inj hbo))⟩
    | i a => exact ⟨v0, deep_merge_cons_other rest (fun bo vo hbo _ => by
        rw [hb] at hbo; exact J.noConfusion (Option.some.inj hbo))⟩
    | b a => exact ⟨v0, deep_merge_cons_other rest (fun bo vo hbo _ => by
        rw [hb] at hbo; exact J.noConfusion (Option.some.inj hbo))⟩
    | arr a => exact ⟨v0, deep_merge_cons_other rest (fun bo vo hbo _ => by
        rw [hb] at hbo; exact J.noConfusion (Option.some.inj hbo))⟩

/-- The key sequence of a merge: the base's keys, then the update's new keys
in update order. -/
theorem keys_deep_merge {u : Dict} (hnd : (keys u).Nodup) (b : Dict) :
    keys (deep_merge b u)
      = keys b ++ (keys u).filter (fun k => decide (k ∉ keys b)) := by
  induction u generalizing b with
  | nil => simp [deep_merge, keys]
  | cons p rest ih =>
      obtain ⟨k0, v0⟩ := p
      have hnd2 : (k0 :: keys rest).Nodup := hnd
      obtain ⟨hk0, hnd'⟩ := List.nodup_cons.mp hnd2
      obtain ⟨X, hX⟩ := deep_merge_cons_exists b k0 v0 rest
      rw [hX, ih hnd', keys_setKey]
      have hku : keys ((k0, v0) :: rest) = k0 :: keys rest := rfl
      rw [hku]
      by_cases hmem : k0 ∈ keys b
      · rw [if_pos hmem, List.filter_cons_of_neg (by simpa using hmem)]
      · rw [if_neg hmem, List.filter_cons_of_pos (by simpa using hmem),
          List.append_assoc, List.singleton_append]
        congr 2
        apply List.filter_congr
        intro x hx
        have hxk : x ≠ k0 := fun hh => hk0 (hh ▸ hx)
        simp [hxk]

theorem mem_iff_getKey {d : Dict} (hnd : (keys d).Nodup) {k : String} {v : J} :
    (k, v) ∈ d ↔ getKey d k = some v := by
  induction d with
  | nil => simp [getKey]
  | cons p rest ih =>
      obtain ⟨k0, v0⟩ := p
      have hnd2 : (k0 :: keys rest).Nodup := hnd
      obtain ⟨hk0, hnd'⟩ := List.nodup_cons.mp hnd2
      rw [List.mem_cons]
      by_cases hkk : k0 = k
      · subst hkk
        have hg : getKey ((k0, v0) :: rest) k0 = some v0 := by simp [getKey]
        rw [hg]
        constructor
        · rintro (h | h)
          · injection h with h1 h2
            rw [h2]
          · exact absurd
              (show k0 ∈ keys rest from List.mem_map_of_mem Prod.fst h) hk0
        · intro h
          exact Or.inl (by rw [← Option.some.inj h])
      · have hg : getKey ((k0, v0) :: rest) k = getKey rest k := by
          simp [getKey, hkk]
        rw [hg]
        constructor
        · rintro (h | h)
          · injection h with h1 h2
            exact absurd h1.symm hkk
          · exact (ih hnd').mp h
        · intro h
          exact Or.inr ((ih hnd').mpr h)

theorem sizeOf_val_lt {d : Dict} {k : String} {v : J} (h : (k, v) ∈ d) :
    sizeOf v < sizeOf d := by
  induction d with
  | nil => cases h
  | cons p rest ih =>
      rcases List.mem_cons.mp h with h' | h'
      · subst h'
        simp only [List.cons.sizeOf_spec, Prod.mk.sizeOf_spec]
        omega
      · have := ih h'
        simp only [List.cons.sizeOf_spec]
        omega

/-- Extensionality for dicts with distinct keys: same key sequence and same
lookups force equality. -/
theorem dict_ext {l1 : Dict} (hnd : (keys l1).Nodup) :
    ∀ {l2 : Dict}, keys l1 = keys l2 → (∀ k, getKey l1 k = getKey l2 k) →
      l1 = l2 := by
  induction l1 with
  | nil =>
      intro l2 hkeys _
      cases l2 with
      | nil => rfl
      | cons q rest2 => simp [keys] at hkeys
  | cons p rest ih =>
      intro l2 hkeys hget
      obtain ⟨k0, v0⟩ := p
      cases l2 with
      | nil => simp [keys] at hkeys
      | cons q rest2 =>
          obtain ⟨k1, v1⟩ := q
          have hkeys' : k0 :: keys rest = k1 :: keys rest2 := hkeys
          injection hkeys' with hk htl
          subst hk
          have hnd2 : (k0 :: keys rest).Nodup := hnd
          obtain ⟨hk0, hnd'⟩ := List.nodup_cons.mp hnd2
          have hv : v0 = v1 := by
            have hh := hget k0
            simpa [getKey] using hh
          subst hv
          have htail : rest = rest2 := by
            refine ih hnd' htl ?_
            intro k
            by_cases hkk : k0 = k
            · subst hkk
              rw [getKey_eq_none_iff.mpr hk0,
                Eq.symm (getKey_eq_none_iff.mpr (htl ▸ hk0))]
            · have hh := hget k
              simpa [getKey, hkk] using hh
          rw [htail]

/-- Pure well-formed object trees: every value at every depth is itself a
dict with distinct keys (the shape on which per-key merging is associative). -/
inductive PureWF : J → Prop where
  | obj (entries : List (String × J)) (hnd : (keys entries).Nodup)
      (hv : ∀ p ∈ entries, PureWF p.2) : PureWF (J.obj entries)

/-- A dict whose values are all pure well-formed object trees. -/
def PureWFD (d : Dict) : Prop :=
  (keys d).Nodup ∧ ∀ p ∈ d, PureWF p.2

theorem pureWFD_of_pureWF {o : Dict} (h : PureWF (J.obj o)) : PureWFD o := by
  cases h with
  | obj _ hnd hv => exact ⟨hnd, hv⟩

theorem pure_getKey {d : Dict} (hd : PureWFD d) {k : String} {v : J}
    (h : getKey d k = some v) : ∃ o, v = J.obj o ∧ PureWFD o := by
  have hmem : (k, v) ∈ d := (mem_iff_getKey hd.1).mpr h
  have hp := hd.2 _ hmem
  cases hp with
  | obj o hnd hv => exact ⟨o, rfl, hnd, hv⟩

/-- `deep_merge` preserves pure well-formedness. -/
theorem pureWFD_deep_merge_aux :
    ∀ (n : Nat) (b u : Dict), sizeOf u ≤ n → PureWFD b → PureWFD u →
      PureWFD (deep_merge b u) := by
  intro n
  induction n with
  | zero =>
      intro b u hsz
      exact absurd hsz (by cases u <;> simp)
  | succ n ih =>
      intro b u hsz hb hu
      have hndm : (keys (deep_merge b u)).Nodup := by
        rw [keys_deep_merge hu.1]
        refine List.Nodup.append hb.1 (List.Nodup.filter _ hu.1) ?_
        intro x hx1 hx2
        have := List.of_mem_filter hx2
        simp at this
        exact this hx1
      refine ⟨hndm, ?_⟩
      rintro ⟨k, v⟩ hp
      have hg : getKey (deep_merge b u) k = some v := (mem_iff_getKey hndm).mp hp
      rw [getKey_deep_merge hu.1] at hg
      rcases hu' : getKey u k with _ | vu
      · rw [hu', mergeVal_none] at hg
        obtain ⟨o, rfl, ho⟩ := pure_getKey hb hg
        exact PureWF.obj o ho.1 ho.2
      · obtain ⟨uo, rfl, huo⟩ := pure_getKey hu hu'
        rw [hu'] at hg
        rcases hb' : getKey b k with _ | vb
        · rw [hb'] at hg
          simp only [mergeVal] at hg
          obtain rfl := Option.some.inj hg
          exact PureWF.obj uo huo.1 huo.2
        · obtain ⟨bo, rfl, hbo⟩ := pure_getKey hb hb'
          rw [hb', mergeVal_obj_obj] at hg
          obtain rfl := Option.some.inj hg
          have hszuo : sizeOf uo ≤ n := by
            have hm : (k, J.obj uo) ∈ u := (mem_iff_getKey hu.1).mpr hu'
            have := sizeOf_val_lt hm
            simp only [J.obj.sizeOf_spec] at this
            omega
          have := ih bo uo hszuo hbo huo
          exact PureWF.obj _ this.1 this.2

theorem pureWFD_deep_merge {b u : Dict} (hb : PureWFD b) (hu : PureWFD u) :
    PureWFD (deep_merge b u) :=
  pureWFD_deep_merge_aux (sizeOf u) b u le_rfl hb hu

/-- Associativity of `deep_merge` on pure well-formed object trees. -/
theorem deep_merge_assoc_aux :
    ∀ (n : Nat) (a b c : Dict), sizeOf b + sizeOf c ≤ n →
      PureWFD a → PureWFD b → PureWFD c →
      deep_merge (deep_merge a b) c = deep_merge a (deep_merge b c) := by
  intro n
  induction n with
  | zero =>
      intro a b c hsz _ _ _
      exact absurd hsz (by cases b <;> cases c <;> simp)
  | succ n ih =>
      intro a b c hsz ha hb hc
      have hab := pureWFD_deep_merge ha hb
      have hbc := pureWFD_deep_merge hb hc
      have habc := pureWFD_deep_merge hab hc
      refine dict_ext habc.1 ?_ ?_
      · rw [keys_deep_merge hc.1, keys_deep_merge hb.1,
          keys_deep_merge hbc.1, keys_deep_merge hc.1,
          List.filter_append, List.append_assoc]
        congr 1
        congr 1
        rw [List.filter_filter]
        apply List.filter_congr
        intro x _
        by_cases hxa : x ∈ keys a <;> by_cases hxb : x ∈ keys b <;>
          simp [List.mem_append, List.mem_filter, hxa, hxb]
      · intro k
        rw [getKey_deep_merge hc.1, getKey_deep_merge hb.1,
          getKey_deep_merge hbc.1, getKey_deep_merge hc.1]
        rcases hgc : getKey c k with _ | vc
        · simp
        · obtain ⟨oc, rfl, hoc⟩ := pure_getKey hc hgc
          rcases hgb : getKey b k with _ | vb
          · simp [mergeVal]
          · obtain ⟨ob, rfl, hob⟩ := pure_getKey hb hgb
            rcases hga : getKey a k with _ | va
            · simp [mergeVal]
            · obtain ⟨oa, rfl, hoa⟩ := pure_getKey ha hga
              rw [mergeVal_obj_obj, mergeVal_obj_obj, mergeVal_obj_obj,
                mergeVal_obj_obj]
              have hszb : sizeOf ob < sizeOf b := by
                have h1 := sizeOf_val_lt ((mem_iff_getKey hb.1).mpr hgb)
                simp only [J.obj.sizeOf_spec] at h1
                omega
              have hszc : sizeOf oc < sizeOf c := by
                have h1 := sizeOf_val_lt ((mem_iff_getKey hc.1).mpr hgc)
                simp only [J.obj.sizeOf_spec] at h1
                omega
              rw [ih oa ob oc (by omega) hoa hob hoc]

/-- `deep_merge` is associative when every value stored at any depth in the
three dicts is itself a dict (with distinct keys at every level). -/
theorem deep_merge_assoc {a b c : Dict} (ha : PureWFD a) (hb : PureWFD b)
    (hc : PureWFD c) :
    deep_merge (deep_merge a b) c = deep_merge a (deep_merge b c) :=
  deep_merge_assoc_aux (sizeOf b + sizeOf c) a b c le_rfl ha hb hc

theorem mergeVal_some_right {x : Option J} {u : J} (h : ∀ o, u ≠ J.obj o) :
    mergeVal x (some u) = some u := by
  cases x with
  | none => rfl
  | some w => cases w <;> cases u <;> first | rfl | exact absurd rfl (h _)

theorem mergeVal_obj_cases (x : Option J) (uo : Dict) :
    mergeVal x (some (J.obj uo)) = some (J.obj uo) ∨
      ∃ bo, x = some (J.obj bo) ∧
        mergeVal x (some (J.obj uo)) = some (J.obj (deep_merge bo uo)) := by
  cases x with
  | none => exact Or.inl rfl
  | some w =>
      cases w with
      | obj bo => exact Or.inr ⟨bo, rfl, rfl⟩
      | s a => exact Or.inl rfl
      | i a => exact Or.inl rfl
      | b a => exact Or.inl rfl
      | arr a => exact Or.inl rfl

/-- Whatever the prior `models` section holds, merging in the ark update
forces `providers.ark.baseUrl` to the derived URL: the string at the leaf is
never a dict, so `deep_merge` overwrites it. -/
theorem arkMerge_baseUrl (base : Dict) (url key model iid : String) :
    getPath (deep_merge base (arkConfigUpdate url key model iid))
      ["providers", "ark", "baseUrl"] = some (J.s url) := by
  have hndU : (keys (arkConfigUpdate url key model iid)).Nodup := by
    simp [arkConfigUpdate, keys]
  have hndP : (keys (arkProviderEntries url key model iid)).Nodup := by
    simp [arkProviderEntries, keys]
  have hUprov : getKey (arkConfigUpdate url key model iid) "providers"
      = some (J.obj [("ark", J.obj (arkProviderEntries url key model iid))]) := by
    simp [arkConfigUpdate, getKey]
  have hPbase : getKey (arkProviderEntries url key model iid) "baseUrl"
      = some (J.s url) := by
    simp [arkProviderEntries, getKey]
  have l3 : ∀ P2 : Dict,
      (P2 = arkProviderEntries url key model iid ∨
        ∃ bo2, P2 = deep_merge bo2 (arkProviderEntries url key model iid)) →
      getKey P2 "baseUrl" = some (J.s url) := by
    rintro P2 (rfl | ⟨bo2, rfl⟩)
    · exact hPbase
    · rw [getKey_deep_merge hndP, hPbase]
      exact mergeVal_some_right (fun o hh => J.noConfusion hh)
  have l2 : ∀ P1 : Dict,
      (P1 = [("ark", J.obj (arkProviderEntries url key model iid))] ∨
        ∃ bo1, P1 = deep_merge bo1
          [("ark", J.obj (arkProviderEntries url key model iid))]) →
      ∃ P2, getKey P1 "ark" = some (J.obj P2) ∧
        (P2 = arkProviderEntries url key model iid ∨
          ∃ bo2, P2 = deep_merge bo2 (arkProviderEntries url key model iid)) := by
    rintro P1 (rfl | ⟨bo1, rfl⟩)
    · exact ⟨_, by simp [getKey], Or.inl rfl⟩
    · have hg : getKey (deep_merge bo1
          [("ark", J.obj (arkProviderEntries url key model iid))]) "ark"
          = mergeVal (getKey bo1 "ark")
            (some (J.obj (arkProviderEntries url key model iid))) := by
        rw [getKey_deep_merge (by simp [keys])]
        simp [getKey]
      rcases mergeVal_obj_cases (getKey bo1 "ark")
          (arkProviderEntries url key model iid) with hcase | ⟨bo2, _, hcase⟩
      · exact ⟨_, by rw [hg, hcase], Or.inl rfl⟩
      · exact ⟨_, by rw [hg, hcase], Or.inr ⟨bo2, rfl⟩⟩
  have hg1 : getKey (deep_merge base (arkConfigUpdate url key model iid))
      "providers" = mergeVal (getKey base "providers")
        (some (J.obj [("ark", J.obj (arkProviderEntries url key model iid))])) := by
    rw [getKey_deep_merge hndU, hUprov]
  rcases mergeVal_obj_cases (getKey base "providers")
      [("ark", J.obj (arkProviderEntries url key model iid))] with
    hcase | ⟨bo1, _, hcase⟩
  · have hP1 := hg1.trans hcase
    obtain ⟨P2, hg2, hc2⟩ := l2 _ (Or.inl rfl)
    simp [getPath, hP1, hg2, l3 P2 hc2]
  · have hP1 := hg1.trans hcase
    obtain ⟨P2, hg2, hc2⟩ := l2 _ (Or.inr ⟨bo1, rfl⟩)
    simp [getPath, hP1, hg2, l3 P2 hc2]

theorem getPath_setKey_obj (cf : Dict) (k : String) (M : Dict)
    (rest : List String) :
    getPath (setKey cf k (J.obj M)) (k :: rest) = getPath M rest := by
  cases rest <;> simp [getPath, getKey_setKey_self]

theorem getPath_agents_frame (cf M : Dict) (AG : J) (rest : List String) :
    getPath (setKey (ensureKeyDict (setKey cf "models" (J.obj M)) "agents")
        "agents" AG) ("models" :: rest) = getPath M rest := by
  rw [getPath_cons_of_getKey_eq
      (show getKey (setKey (ensureKeyDict (setKey cf "models" (J.obj M))
          "agents") "agents" AG) "models"
        = getKey (setKey cf "models" (J.obj M)) "models" from by
        rw [getKey_setKey_ne _ (by decide : ("models" : String) ≠ "agents"),
          getKey_ensureKeyDict_ne _
            (by decide : ("models" : String) ≠ "agents")]) rest,
    getPath_setKey_obj]

/-- When both ARK credentials are present, the step leaves the derived base
URL at `models.providers.ark.baseUrl`, whatever was there before. -/
theorem arkStep_value {c : Creds} {site iid : String} {cf cf' : Dict}
    (h : arkStep c site iid cf = some cf')
    (hk : c.ark_api_key ≠ "") (hm : c.ark_model_id ≠ "") :
    getPath cf' ["models", "providers", "ark", "baseUrl"]
      = some (J.s (get_ark_url site c.ark_coding_plan)) := by
  unfold arkStep at h
  split at h
  · simp only [optBind_eq_some, Option.pure_def, Option.some.injEq] at h
    obtain ⟨base, hbase, ag, hag, df, hdf, rfl⟩ := h
    exact (getPath_agents_frame cf _ _ _).trans
      (arkMerge_baseUrl base _ c.ark_api_key c.ark_model_id iid)
  · next hcond => exact absurd ⟨hk, hm⟩ hcond

/-- The derived ARK base URL survives to the saved document. -/
theorem runFromCreds_baseUrl {c : Creds} {prior : Option J}
    {site iid now : String} {bytes : List Nat} {cf : Dict}
    (h : runFromCreds c prior site iid bytes now = some cf)
    (hk : c.ark_api_key ≠ "") (hm : c.ark_model_id ≠ "") :
    getPath cf ["models", "providers", "ark", "baseUrl"]
      = some (J.s (get_ark_url site c.ark_coding_plan)) := by
  unfold runFromCreds at h
  simp only [optBind_eq_some, Option.pure_def, Option.some.injEq] at h
  obtain ⟨cfg0, h0, cfg1, h1, cfg2, h2, cfg3, h3, cfg4, h4, cfg5, h5,
    cfg6, h6, cfg7, h7, hmeta⟩ := h
  rw [getPath_cons_of_getKey_eq
        (metaStep_getKey_eq hmeta (by decide : ("models" : String) ≠ "meta")) _,
    getPath_cons_of_getKey_eq (wecomStep_getKey_eq h7
      (by decide : ("models" : String) ≠ "channels")
      (by decide : ("models" : String) ≠ "gateway")) _,
    getPath_cons_of_getKey_eq (dingtalkStep_getKey_eq h6
      (by decide : ("models" : String) ≠ "channels")
      (by decide : ("models" : String) ≠ "gateway")) _,
    getPath_cons_of_getKey_eq (telegramStep_getKey_eq h5
      (by decide : ("models" : String) ≠ "channels")
      (by decide : ("models" : String) ≠ "plugins")) _,
    getPath_cons_of_getKey_eq (feishuSecretStep_getKey_eq h4
      (by decide : ("models" : String) ≠ "channels")) _,
    getPath_cons_of_getKey_eq (feishuIdStep_getKey_eq h3
      (by decide : ("models" : String) ≠ "channels")) _,
    getPath_cons_of_getKey_eq (getKey_ensureKeyDict_ne cfg2
      (by decide : ("models" : String) ≠ "channels")) _]
  exact arkStep_value h2 hk hm

/-- `token_hex` on `n` drawn bytes yields `2 * n` characters. -/
theorem token_hex_length (bytes : List Nat) :
    (token_hex bytes).length = 2 * bytes.length := by
  induction bytes with
  | nil => rfl
  | cons byt rest ih =>
      have : token_hex (byt :: rest)
          = String.mk (hexDigit (byt % 256 / 16) :: hexDigit (byt % 256 % 16)
            :: (token_hex rest).data) := rfl
      rw [this]
      simp only [String.length, List.length_cons] at ih ⊢
      omega

/-- Every character of a `token_hex` string is a lowercase hex digit. -/
theorem token_hex_chars (bytes : List Nat) :
    ∀ ch ∈ (token_hex bytes).data, ch ∈ "0123456789abcdef".data := by
  have hdigit : ∀ n : Nat, n < 16 → hexDigit n ∈ "0123456789abcdef".data := by
    intro n hn
    interval_cases n <;> decide
  induction bytes with
  | nil => intro ch hch; cases hch
  | cons byt rest ih =>
      intro ch hch
      have hh : (token_hex (byt :: rest)).data
          = hexDigit (byt % 256 / 16) :: hexDigit (byt % 256 % 16)
            :: (token_hex rest).data := rfl
      rw [hh] at hch
      rcases List.mem_cons.mp hch with rfl | hch
      · exact hdigit _ (by omega)
      · rcases List.mem_cons.mp hch with rfl | hch
        · exact hdigit _ (by omega)
        · exact ih ch hch

/-- A fresh run (no config file) with no credential resolved produces exactly
the three sections `gateway`, `channels`, `meta`. -/
theorem runFromCreds_fresh_noCreds {c : Creds} (site iid now : String)
    (bytes : List Nat)
    (h1 : c.ark_api_key = "" ∨ c.ark_model_id = "")
    (h2 : c.feishu_app_id = "") (h3 : c.feishu_app_secret = "")
    (h4 : c.telegram_bot_token = "")
    (h5 : c.dingtalk_client_id = "" ∨ c.dingtalk_client_secret = "")
    (h6 : c.wecom_token = "" ∨ c.wecom_encoding_aes_key = "") :
    runFromCreds c none site iid bytes now =
      some [("gateway", J.obj [("auth", J.obj [("token", J.s (token_hex bytes))])]),
            ("channels", J.obj []),
            ("meta", J.obj [("lastTouchedAt", J.s now)])] := by
  rcases h1 with h1 | h1 <;> rcases h5 with h5 | h5 <;> rcases h6 with h6 | h6 <;>
    simp [runFromCreds, gatewayTokenStep, arkStep, feishuIdStep,
      feishuSecretStep, telegramStep, dingtalkStep, wecomStep, metaStep,
      ensureKeyDict, hasKey, getKey, setKey, getObjAt, h1, h2, h3, h4, h5, h6]

/-- A fresh run configuring only the wecom channel completes whatever the
token and AES key values are — in particular whatever the AES key length:
the length check only logs. -/
theorem runFromCreds_wecom_fresh_isSome (wt waes : String)
    (site iid now : String) (bytes : List Nat) (hwt : wt ≠ "")
    (hwa : waes ≠ "") :
    (runFromCreds ⟨"", "", false, "", "", "", "", "", wt, waes⟩ none
      site iid bytes now).isSome = true := by
  simp [runFromCreds, gatewayTokenStep, arkStep, feishuIdStep,
    feishuSecretStep, telegramStep, dingtalkStep, wecomStep, metaStep,
    ensureKeyDict, hasKey, getKey, setKey, getObjAt, hwt, hwa]

/-! ### The AES-key warning appears in the log stream exactly when the key
length is wrong -/

theorem append_ne_of_not_pfx {a w : String} (h : ¬ a.data <+: w.data)
    (x : String) : a ++ x ≠ w := by
  intro hh
  exact h ⟨x.data, by rw [← String.data_append, hh]⟩

theorem mem_ite_or {α : Type} {x : α} {c : Prop} [Decidable c]
    {l1 l2 : List α} (h : x ∈ (if c then l1 else l2)) : x ∈ l1 ∨ x ∈ l2 := by
  split at h
  · exact Or.inl h
  · exact Or.inr h

theorem aesWarning_mem_buildLogs {env_file_vars : List (String × String)}
    {c : Creds} {priorExists : Bool} {site iid : String} {bytes : List Nat}
    (hwt : c.wecom_token ≠ "") (hwa : c.wecom_encoding_aes_key ≠ "") :
    (aesWarning c.wecom_encoding_aes_key.length ∈
        buildLogs env_file_vars c priorExists site iid bytes)
      ↔ c.wecom_encoding_aes_key.length ≠ 43 := by
  constructor
  · intro hmem hlen43
    have hW : aesWarning 43
        = "Warning: EncodingAESKey should be 43 characters (got 43)" := rfl
    have n1 : ∀ x : String, "Warning: EncodingAESKey should be 43 characters (got 43)"
        ≠ "Found .env file, loaded " ++ x ++ " vars" := fun x => by
      rw [String.append_assoc]
      exact (append_ne_of_not_pfx (by decide) _).symm
    have n2 : ∀ x : String, "Warning: EncodingAESKey should be 43 characters (got 43)"
        ≠ "  ARK_API_KEY: " ++ x :=
      fun x => (append_ne_of_not_pfx (by decide) x).symm
    have n3 : ∀ x : String, "Warning: EncodingAESKey should be 43 characters (got 43)"
        ≠ "  ARK_MODEL_ID: " ++ x :=
      fun x => (append_ne_of_not_pfx (by decide) x).symm
    have n4 : ∀ x : String, "Warning: EncodingAESKey should be 43 characters (got 43)"
        ≠ "  ARK_CODING_PLAN: " ++ x :=
      fun x => (append_ne_of_not_pfx (by decide) x).symm
    have n5 : ∀ x : String, "Warning: EncodingAESKey should be 43 characters (got 43)"
        ≠ "  FEISHU_APP_ID: " ++ x :=
      fun x => (append_ne_of_not_pfx (by decide) x).symm
    have n6 : ∀ x : String, "Warning: EncodingAESKey should be 43 characters (got 43)"
        ≠ "  FEISHU_APP_SECRET: " ++ x :=
      fun x => (append_ne_of_not_pfx (by decide) x).symm
    have n7 : ∀ x : String, "Warning: EncodingAESKey should be 43 characters (got 43)"
        ≠ "  TELEGRAM_BOT_TOKEN: " ++ x :=
      fun x => (append_ne_of_not_pfx (by decide) x).symm
    have n8 : ∀ x : String, "Warning: EncodingAESKey should be 43 characters (got 43)"
        ≠ "  DINGTALK_CLIENT_ID: " ++ x :=
      fun x => (append_ne_of_not_pfx (by decide) x).symm
    have n9 : ∀ x : String, "Warning: EncodingAESKey should be 43 characters (got 43)"
        ≠ "  DINGTALK_CLIENT_SECRET: " ++ x :=
      fun x => (append_ne_of_not_pfx (by decide) x).symm
    have n10 : ∀ x : String, "Warning: EncodingAESKey should be 43 characters (got 43)"
        ≠ "  WECOM_TOKEN: " ++ x :=
      fun x => (append_ne_of_not_pfx (by decide) x).symm
    have n11 : ∀ x : String, "Warning: EncodingAESKey should be 43 characters (got 43)"
        ≠ "  WECOM_ENCODING_AES_KEY: " ++ x :=
      fun x => (append_ne_of_not_pfx (by decide) x).symm
    have n12 : ∀ x : String, "Warning: EncodingAESKey should be 43 characters (got 43)"
        ≠ "Site: " ++ x :=
      fun x => (append_ne_of_not_pfx (by decide) x).symm
    have n13 : ∀ x : String, "Warning: EncodingAESKey should be 43 characters (got 43)"
        ≠ "Instance ID: " ++ x :=
      fun x => (append_ne_of_not_pfx (by decide) x).symm
    have n14 : ∀ x y : String, "Warning: EncodingAESKey should be 43 characters (got 43)"
        ≠ "Generated gateway auth token: " ++ x ++ y := fun x y => by
      rw [String.append_assoc]
      exact (append_ne_of_not_pfx (by decide) _).symm
    have n15 : ∀ x : String, "Warning: EncodingAESKey should be 43 characters (got 43)"
        ≠ "ARK_BASE_URL: " ++ x :=
      fun x => (append_ne_of_not_pfx (by decide) x).symm
    unfold buildLogs at hmem
    rw [hlen43, hW] at hmem
    simp only [List.mem_append] at hmem
    rcases hmem with ((((((((((((h | h) | h) | h) | h) | h) | h) | h) | h)
        | h) | h) | h) | h) <;>
      repeat' rcases mem_ite_or h with h | h
    all_goals
      simp [List.mem_cons, ENV_FILE, CONFIG_FILE, aesWarning, n1, n2, n3, n4,
        n5, n6, n7, n8, n9, n10, n11, n12, n13, n14, n15] at h
  · intro hne
    unfold buildLogs
    have hg : c.wecom_token ≠ "" ∧ c.wecom_encoding_aes_key ≠ "" := ⟨hwt, hwa⟩
    rw [if_pos hg, if_pos hne]
    simp [List.mem_append, List.mem_cons]

/-! ### String-splicing lemmas for the memory-limit edit -/

theorem pfx_refl (p : List Char) : pfx p p = true := by
  induction p <;> simp [pfx, *]

theorem pfx_append_self (p t : List Char) : pfx p (p ++ t) = true := by
  induction p <;> simp [pfx, *]

theorem pfx_le_length {p s : List Char} (h : pfx p s = true) :
    p.length ≤ s.length := by
  induction p generalizing s with
  | nil => simp
  | cons a as ih =>
      cases s with
      | nil => simp [pfx] at h
      | cons b bs =>
          simp only [pfx, Bool.and_eq_true] at h
          have := ih h.2
          simp only [List.length_cons]
          omega

theorem pfx_nl {p : List Char} (hnl : '\n' ∉ p) (x y : List Char) :
    pfx p (x ++ '\n' :: y) = pfx p x := by
  induction p generalizing x with
  | nil => simp [pfx]
  | cons a as ih =>
      cases x with
      | nil =>
          have ha : ¬(a = '\n') := fun hh => hnl (by
            rw [← hh]; exact List.mem_cons_self a as)
          simp [pfx, ha]
      | cons b bs =>
          show (decide (a = b) && pfx as (bs ++ '\n' :: y))
            = (decide (a = b) && pfx as bs)
          rw [ih (fun hh => hnl (List.mem_cons_of_mem _ hh))]

theorem occursL_nil_left (t : List Char) : occursL [] t = true := by
  cases t <;> simp [occursL, pfx, List.isEmpty]

theorem occursL_self_append (pat t : List Char) :
    occursL pat (pat ++ t) = true := by
  cases pat with
  | nil => exact occursL_nil_left t
  | cons c cs =>
      show (pfx (c :: cs) ((c :: cs) ++ t) || occursL (c :: cs) (cs ++ t)) = true
      rw [pfx_append_self]
      rfl

theorem occursL_append_nl {pat : List Char} (hnl : '\n' ∉ pat) (x y : List Char) :
    occursL pat (x ++ '\n' :: y) = (occursL pat x || occursL pat y) := by
  induction x with
  | nil =>
      simp only [List.nil_append, occursL]
      rw [show ('\n' :: y) = (([] : List Char) ++ '\n' :: y) from rfl, pfx_nl hnl]
      cases pat <;> simp [occursL, pfx, List.isEmpty]
  | cons c cs ih =>
      show (pfx pat ((c :: cs) ++ '\n' :: y) || occursL pat (cs ++ '\n' :: y))
        = ((pfx pat (c :: cs) || occursL pat cs) || occursL pat y)
      rw [pfx_nl hnl, ih, Bool.or_assoc]

theorem occursL_mono_right {pat t : List Char} (h : occursL pat t = true)
    (x : List Char) : occursL pat (x ++ t) = true := by
  induction x with
  | nil => simpa using h
  | cons c cs ih => simp [occursL, ih]

theorem replaceL_of_not_occurs {pat rep s : List Char}
    (h : occursL pat s = false) : replaceL pat rep s = s := by
  induction s with
  | nil => simp [replaceL]
  | cons c cs ih =>
      simp only [occursL, Bool.or_eq_false_iff] at h
      rw [replaceL, if_neg (by simp [h.1]), ih h.2]

theorem replaceL_append_nl_aux {pat rep : List Char} (hnl : '\n' ∉ pat)
    (hne : pat ≠ []) :
    ∀ (n : Nat) (x y : List Char), x.length ≤ n →
      replaceL pat rep (x ++ '\n' :: y)
        = replaceL pat rep x ++ '\n' :: replaceL pat rep y := by
  have hlen0 : 0 < pat.length := List.length_pos.mpr hne
  have hheadnl : ∀ y : List Char, replaceL pat rep ('\n' :: y)
      = '\n' :: replaceL pat rep y := by
    intro y
    have hp : pfx pat ('\n' :: y) = false := by
      cases pat with
      | nil => exact absurd rfl hne
      | cons a as =>
          have ha : ¬(a = '\n') := fun hh => hnl (by
            rw [← hh]; exact List.mem_cons_self a as)
          simp [pfx, ha]
    rw [replaceL, if_neg (by simp [hp])]
  have hnilrep : replaceL pat rep [] = [] := by simp [replaceL]
  have hnilcase : ∀ y : List Char, replaceL pat rep (([] : List Char) ++ '\n' :: y)
      = replaceL pat rep [] ++ '\n' :: replaceL pat rep y := by
    intro y
    rw [List.nil_append, hheadnl y, hnilrep, List.nil_append]
  intro n
  induction n with
  | zero =>
      intro x y hlen
      have hx : x = [] := List.eq_nil_of_length_eq_zero (by omega)
      subst hx
      exact hnilcase y
  | succ n ih =>
      intro x y hlen
      cases x with
      | nil => exact hnilcase y
      | cons c cs =>
          by_cases hm : pfx pat (c :: cs) = true
          · have hmbig : pfx pat ((c :: cs) ++ '\n' :: y) = true := by
              rw [pfx_nl hnl]; exact hm
            have hple : pat.length ≤ (c :: cs).length := pfx_le_length hm
            rw [show (c :: cs) ++ '\n' :: y = c :: (cs ++ '\n' :: y) from rfl]
            rw [replaceL, if_pos ⟨by
                rw [show c :: (cs ++ '\n' :: y) = (c :: cs) ++ '\n' :: y from rfl]
                exact hmbig, hlen0⟩]
            rw [replaceL, if_pos ⟨hm, hlen0⟩]
            rw [show c :: (cs ++ '\n' :: y) = (c :: cs) ++ '\n' :: y from rfl,
              List.drop_append_of_le_length hple]
            rw [ih (List.drop pat.length (c :: cs)) y (by
              have hd := List.length_drop pat.length (c :: cs)
              simp only [List.length_cons] at hlen hd
              rw [hd]
              omega)]
            rw [List.append_assoc]
          · have hmx : pfx pat (c :: cs) = false := by simpa using hm
            have hmbig : pfx pat (c :: (cs ++ '\n' :: y)) = false := by
              have hh := pfx_nl hnl (c :: cs) y
              rw [show pfx pat (c :: (cs ++ '\n' :: y))
                = pfx pat ((c :: cs) ++ '\n' :: y) from rfl, hh, hmx]
            rw [show (c :: cs) ++ '\n' :: y = c :: (cs ++ '\n' :: y) from rfl]
            rw [replaceL, if_neg (by simp [hmbig])]
            rw [replaceL, if_neg (by simp [hmx])]
            rw [ih cs y (by simpa using Nat.le_of_succ_le_succ hlen)]
            rfl

theorem replaceL_append_nl {pat rep : List Char} (hnl : '\n' ∉ pat)
    (hne : pat ≠ []) (x y : List Char) :
    replaceL pat rep (x ++ '\n' :: y)
      = replaceL pat rep x ++ '\n' :: replaceL pat rep y :=
  replaceL_append_nl_aux hnl hne x.length x y le_rfl

theorem joinNLL_cons (l : List Char) {L : List (List Char)} (h : L ≠ []) :
    joinNLL (l :: L) = l ++ '\n' :: joinNLL L := by
  cases L with
  | nil => exact absurd rfl h
  | cons l2 ls => rfl

theorem occursL_joinNLL_eq_false {pat : List Char} (hnl : '\n' ∉ pat)
    (hne : pat ≠ []) :
    ∀ {L : List (List Char)}, (∀ l ∈ L, occursL pat l = false) →
      occursL pat (joinNLL L) = false := by
  intro L
  induction L with
  | nil =>
      intro _
      cases pat with
      | nil => exact absurd rfl hne
      | cons a as => simp [joinNLL, occursL, List.isEmpty]
  | cons l ls ih =>
      intro h
      cases ls with
      | nil => exact h l (List.mem_cons_self _ _)
      | cons l2 ls2 =>
          rw [joinNLL_cons _ (by simp), occursL_append_nl hnl]
          rw [h l (List.mem_cons_self _ _),
            ih (fun x hx => h x (List.mem_cons_of_mem _ hx))]
          rfl

theorem occursL_joinNLL_has (pat : List Char) (A B : List (List Char)) :
    occursL pat (joinNLL (A ++ pat :: B)) = true := by
  induction A with
  | nil =>
      cases B with
      | nil =>
          cases pat with
          | nil => exact occursL_nil_left _
          | cons c cs =>
              show occursL (c :: cs) (c :: cs) = true
              simp [occursL, pfx_refl]
      | cons b bs =>
          rw [List.nil_append, joinNLL_cons _ (by simp)]
          exact occursL_self_append _ _
  | cons a as ih =>
      rw [List.cons_append, joinNLL_cons _ (by simp)]
      apply occursL_mono_right
      simp [occursL, ih]

theorem joinNLL_append {A B : List (List Char)} (hA : A ≠ []) (hB : B ≠ []) :
    joinNLL (A ++ B) = joinNLL A ++ '\n' :: joinNLL B := by
  induction A with
  | nil => exact absurd rfl hA
  | cons a as ih =>
      cases as with
      | nil =>
          cases B with
          | nil => exact absurd rfl hB
          | cons b bs => rfl
      | cons a2 as2 =>
          rw [List.cons_append, joinNLL_cons _ (by simp),
            joinNLL_cons _ (by simp), ih (by simp)]
          simp [List.append_assoc]

theorem replaceL_joinNLL {pat rep : List Char} {R : List (List Char)}
    (hnl : '\n' ∉ pat) (hne : pat ≠ []) (hrep : rep = joinNLL R) (hR : R ≠ []) :
    ∀ (A B : List (List Char)), (∀ l ∈ A, occursL pat l = false) →
      (∀ l ∈ B, occursL pat l = false) →
      replaceL pat rep (joinNLL (A ++ pat :: B)) = joinNLL (A ++ R ++ B) := by
  have hRB : ∀ B : List (List Char), (∀ l ∈ B, occursL pat l = false) →
      replaceL pat rep (joinNLL (pat :: B)) = joinNLL (R ++ B) := by
    intro B hB
    cases B with
    | nil =>
        show replaceL pat rep (joinNLL [pat]) = joinNLL (R ++ [])
        rw [List.append_nil]
        have hj : joinNLL [pat] = pat := by
          cases pat with
          | nil => exact absurd rfl hne
          | cons c cs => rfl
        rw [hj, hrep]
        cases pat with
        | nil => exact absurd rfl hne
        | cons c cs =>
            rw [replaceL, if_pos ⟨pfx_refl _, by simp⟩, List.drop_length]
            show joinNLL R ++ replaceL (c :: cs) (joinNLL R) [] = joinNLL R
            have h0 : replaceL (c :: cs) (joinNLL R) [] = [] := by
              simp [replaceL]
            rw [h0, List.append_nil]
    | cons b bs =>
        rw [joinNLL_cons _ (by simp)]
        cases pat with
        | nil => exact absurd rfl hne
        | cons c cs =>
            rw [show (c :: cs) ++ '\n' :: joinNLL (b :: bs)
              = c :: (cs ++ '\n' :: joinNLL (b :: bs)) from rfl]
            rw [replaceL, if_pos ⟨by
                rw [show c :: (cs ++ '\n' :: joinNLL (b :: bs))
                  = (c :: cs) ++ '\n' :: joinNLL (b :: bs) from rfl]
                exact pfx_append_self _ _, by simp⟩]
            rw [show c :: (cs ++ '\n' :: joinNLL (b :: bs))
              = (c :: cs) ++ '\n' :: joinNLL (b :: bs) from rfl,
              List.drop_left]
            have hocc : occursL (c :: cs) (joinNLL (b :: bs)) = false :=
              occursL_joinNLL_eq_false hnl hne hB
            have hjoin : replaceL (c :: cs) rep ('\n' :: joinNLL (b :: bs))
                = '\n' :: joinNLL (b :: bs) := by
              apply replaceL_of_not_occurs
              simp only [occursL, hocc, Bool.or_false]
              have ha : ¬(c = '\n') := fun hh => hnl (by
                rw [← hh]; exact List.mem_cons_self c cs)
              simp [pfx, ha]
            rw [hjoin, hrep, joinNLL_append hR (by simp)]
  intro A
  induction A with
  | nil =>
      intro B hA hB
      rw [List.nil_append, List.nil_append]
      exact hRB B hB
  | cons a as ih =>
      intro B hA hB
      rw [List.cons_append, joinNLL_cons _ (by simp),
        replaceL_append_nl hnl hne,
        replaceL_of_not_occurs (hA a (List.mem_cons_self _ _)),
        ih B (fun x hx => hA x (List.mem_cons_of_mem _ hx)) hB]
      rw [show ((a :: as) ++ R) ++ B = a :: ((as ++ R) ++ B) from rfl]
      rw [joinNLL_cons _ (by
        intro hcon
        rcases List.append_eq_nil.mp hcon with ⟨h1, _⟩
        rcases List.append_eq_nil.mp h1 with ⟨_, h3⟩
        exact hR h3)]

theorem configureMemoryLimits_spec (total : Nat) (content : String)
    (P Q : List String) (htotal : 0 < total)
    (hsplit : pySplitlines content = P ++ "[Service]" :: Q)
    (hP : ∀ l ∈ P, occursL "[Service]".data l.data = false)
    (hQ : ∀ l ∈ Q, occursL "[Service]".data l.data = false) :
    configureMemoryLimits total content
      = some (joinNL ((P.filter fun l => !(memoryDirectiveLine l))
          ++ "[Service]"
            :: ("MemoryMax=" ++ (toString (total * 80 / 100) ++ "M"))
            :: ("MemoryHigh=" ++ (toString (total * 75 / 100) ++ "M"))
            :: (Q.filter fun l => !(memoryDirectiveLine l)))) := by
  have hnl : '\n' ∉ "[Service]".data := by decide
  have hne : "[Service]".data ≠ [] := by decide
  have hkeep : (!(memoryDirectiveLine "[Service]")) = true := by decide
  have hfil : (pySplitlines content).filter (fun l => !(memoryDirectiveLine l))
      = (P.filter fun l => !(memoryDirectiveLine l))
        ++ "[Service]" :: (Q.filter fun l => !(memoryDirectiveLine l)) := by
    have hstep : List.filter (fun l => !(memoryDirectiveLine l)) ("[Service]" :: Q)
        = "[Service]" :: List.filter (fun l => !(memoryDirectiveLine l)) Q := by
      rw [List.filter_cons, if_pos hkeep]
    rw [hsplit, List.filter_append, hstep]
  have hA : ∀ x ∈ (P.filter fun l => !(memoryDirectiveLine l)).map String.data,
      occursL "[Service]".data x = false := by
    intro x hx
    rcases List.mem_map.mp hx with ⟨l, hl, rfl⟩
    exact hP l (List.mem_of_mem_filter hl)
  have hB : ∀ x ∈ (Q.filter fun l => !(memoryDirectiveLine l)).map String.data,
      occursL "[Service]".data x = false := by
    intro x hx
    rcases List.mem_map.mp hx with ⟨l, hl, rfl⟩
    exact hQ l (List.mem_of_mem_filter hl)
  have e1 : ("[Service]\nMemoryMax=" : String).data
      = "[Service]".data ++ '\n' :: ("MemoryMax=" : String).data := by decide
  have e2 : ("\nMemoryHigh=" : String).data
      = '\n' :: ("MemoryHigh=" : String).data := by decide
  have hrep : ("[Service]\nMemoryMax="
        ++ (toString (total * 80 / 100) ++ "M")
        ++ "\nMemoryHigh=" ++ (toString (total * 75 / 100) ++ "M")).data
      = joinNLL ["[Service]".data,
          ("MemoryMax=" ++ (toString (total * 80 / 100) ++ "M")).data,
          ("MemoryHigh=" ++ (toString (total * 75 / 100) ++ "M")).data] := by
    simp only [String.data_append, e1, e2, joinNLL, List.append_assoc,
      List.cons_append, List.nil_append]
  have hdata : (joinNL ((P.filter fun l => !(memoryDirectiveLine l))
      ++ "[Service]" :: (Q.filter fun l => !(memoryDirectiveLine l)))).data
      = joinNLL (((P.filter fun l => !(memoryDirectiveLine l)).map String.data)
          ++ "[Service]".data
            :: ((Q.filter fun l => !(memoryDirectiveLine l)).map String.data)) := by
    simp [joinNL, List.map_append]
  simp only [configureMemoryLimits]
  rw [if_pos htotal, hfil, hdata, occursL_joinNLL_has, if_pos rfl]
  rw [replaceL_joinNLL hnl hne hrep (by simp) _ _ hA hB]
  simp only [joinNL, List.map_append, List.map_cons, List.append_assoc,
    List.cons_append, List.nil_append]

/-! ### Retry-loop lemmas -/

/-- Recognizes the per-attempt failure log of a retry loop. -/
def isFailLog (fl : String) : Event → Bool
  | Event.log m => pyStartswith m (fl ++ " attempt ")
  | Event.sleep _ => false

/-- Recognizes a `time.sleep` event. -/
def isSleep : Event → Bool
  | Event.log _ => false
  | Event.sleep _ => true

theorem pyStartswith_append (a t : String) : pyStartswith (a ++ t) a = true := by
  simp only [pyStartswith, String.data_append]
  exact pfx_append_self _ _

theorem isFailLog_fail (fl ta tm rest : String) :
    isFailLog fl (Event.log (fl ++ " attempt " ++ ta ++ "/" ++ tm
      ++ " failed: " ++ rest)) = true := by
  show pyStartswith (fl ++ " attempt " ++ ta ++ "/" ++ tm ++ " failed: " ++ rest)
    (fl ++ " attempt ") = true
  have h : fl ++ " attempt " ++ ta ++ "/" ++ tm ++ " failed: " ++ rest
      = (fl ++ " attempt ")
        ++ (ta ++ ("/" ++ (tm ++ (" failed: " ++ rest)))) := by
    simp [String.append_assoc]
  rw [h]
  exact pyStartswith_append _ _

theorem retryFrom_none (cmd : Nat → Option String) (fl sm el : String)
    (max d attempt : Nat) (h : cmd attempt = none) :
    retryFrom cmd fl sm el max d attempt = (true, [Event.log sm]) := by
  rw [retryFrom, h]

theorem retryFrom_fail_lt (cmd : Nat → Option String) (fl sm el : String)
    (max d attempt : Nat) (e : String) (h : cmd attempt = some e)
    (hlt : attempt < max) :
    retryFrom cmd fl sm el max d attempt
      = ((retryFrom cmd fl sm el max d (attempt + 1)).1,
        Event.log (fl ++ " attempt " ++ toString attempt ++ "/"
            ++ toString max ++ " failed: " ++ e)
          :: Event.log ("Retrying in " ++ toString d ++ " seconds...")
          :: Event.sleep d
          :: (retryFrom cmd fl sm el max d (attempt + 1)).2) := by
  rw [retryFrom, h]
  simp [hlt]

theorem retryFrom_fail_last (cmd : Nat → Option String) (fl sm el : String)
    (max d attempt : Nat) (e : String) (h : cmd attempt = some e)
    (hge : ¬ attempt < max) :
    retryFrom cmd fl sm el max d attempt
      = (false, [Event.log (fl ++ " attempt " ++ toString attempt ++ "/"
            ++ toString max ++ " failed: " ++ e),
          Event.log ("Warning: All " ++ el ++ " attempts failed")]) := by
  rw [retryFrom, h]
  simp [hge]

theorem retryFrom_success (cmd : Nat → Option String) (fl sm el : String)
    (max d : Nat)
    (hsm : isFailLog fl (Event.log sm) = false)
    (hretry : isFailLog fl (Event.log ("Retrying in " ++ toString d
      ++ " seconds...")) = false) :
    ∀ (k attempt : Nat), attempt + k ≤ max →
      (∀ a, attempt ≤ a → a < attempt + k → cmd a ≠ none) →
      cmd (attempt + k) = none →
      (retryFrom cmd fl sm el max d attempt).1 = true ∧
      ((retryFrom cmd fl sm el max d attempt).2.filter
        (isFailLog fl)).length = k ∧
      ((retryFrom cmd fl sm el max d attempt).2.filter isSleep).length = k := by
  intro k
  induction k with
  | zero =>
      intro attempt _ _ hnone
      rw [Nat.add_zero] at hnone
      rw [retryFrom_none cmd fl sm el max d attempt hnone]
      refine ⟨rfl, ?_, ?_⟩
      · simp [List.filter_cons, hsm]
      · simp [List.filter_cons, isSleep]
  | succ k ih =>
      intro attempt hle hfail hnone
      cases hc : cmd attempt with
      | none => exact absurd hc (hfail attempt le_rfl (by omega))
      | some e =>
          have hlt : attempt < max := by omega
          rw [retryFrom_fail_lt cmd fl sm el max d attempt e hc hlt]
          have harith : attempt + 1 + k = attempt + (k + 1) := by omega
          obtain ⟨h1, h2, h3⟩ := ih (attempt + 1) (by omega)
            (fun a ha1 ha2 => hfail a (by omega) (by omega))
            (by rw [harith]; exact hnone)
          have hsleepF : isFailLog fl (Event.sleep d) = false := rfl
          have hsleepT : isSleep (Event.sleep d) = true := rfl
          have hlogS : ∀ m, isSleep (Event.log m) = false := fun _ => rfl
          refine ⟨h1, ?_, ?_⟩
          · simp [List.filter_cons, isFailLog_fail, hretry, hsleepF, h2]
          · simp [List.filter_cons, hlogS, hsleepT, h3]

theorem retryFrom_allfail (cmd : Nat → Option String) (fl sm el : String)
    (max d : Nat)
    (hexh : isFailLog fl (Event.log ("Warning: All " ++ el
      ++ " attempts failed")) = false)
    (hretry : isFailLog fl (Event.log ("Retrying in " ++ toString d
      ++ " seconds...")) = false) :
    ∀ (k attempt : Nat), attempt + k = max →
      (∀ a, attempt ≤ a → a ≤ max → cmd a ≠ none) →
      (retryFrom cmd fl sm el max d attempt).1 = false ∧
      ((retryFrom cmd fl sm el max d attempt).2.filter
        (isFailLog fl)).length = k + 1 ∧
      Event.log ("Warning: All " ++ el ++ " attempts failed")
        ∈ (retryFrom cmd fl sm el max d attempt).2 := by
  intro k
  induction k with
  | zero =>
      intro attempt h0 hfail
      have hm : attempt = max := by omega
      subst hm
      cases hc : cmd attempt with
      | none => exact absurd hc (hfail attempt le_rfl le_rfl)
      | some e =>
          rw [retryFrom_fail_last cmd fl sm el attempt d attempt e hc
            (by omega)]
          refine ⟨rfl, ?_, ?_⟩
          · simp [List.filter_cons, isFailLog_fail, hexh]
          · simp
  | succ k ih =>
      intro attempt hsum hfail
      cases hc : cmd attempt with
      | none => exact absurd hc (hfail attempt le_rfl (by omega))
      | some e =>
          have hlt : attempt < max := by omega
          rw [retryFrom_fail_lt cmd fl sm el max d attempt e hc hlt]
          obtain ⟨h1, h2, h3⟩ := ih (attempt + 1) (by omega)
            (fun a ha1 ha2 => hfail a (by omega) ha2)
          have hsleepF : isFailLog fl (Event.sleep d) = false := rfl
          refine ⟨h1, ?_, ?_⟩
          · simp [List.filter_cons, isFailLog_fail, hretry, hsleepF, h2]
          · simp [h3]

theorem serviceLoops_banner (er rr : Nat → Option String) :
    Event.log "========== setup-openclaw.py completed =========="
      ∈ serviceLoops er rr := by
  simp [serviceLoops]

/-! ### Config-loader lemmas -/

theorem get_config_env_wins (environ ef : List (String × String))
    (key v : String) (h : lookupS environ key = some v) (hv : v ≠ "") :
    get_config environ ef key = v := by
  simp [get_config, pyOrS, h, hv]

theorem get_config_fallback (environ ef : List (String × String))
    (key : String)
    (h : lookupS environ key = none ∨ lookupS environ key = some "") :
    get_config environ ef key = (lookupS ef key).getD "" := by
  rcases h with h | h <;>
    · by_cases hx : (lookupS ef key).getD "" = "" <;>
        simp [get_config, pyOrS, h, hx]

theorem parseEnvLine_skip (env : List (String × String)) (raw : String)
    (h : pyStrip raw = "" ∨ pyStartswith (pyStrip raw) "#" = true) :
    parseEnvLine env raw = env := by
  rcases h with h | h <;> simp [parseEnvLine, h]

theorem parseEnvLine_noEq (env : List (String × String)) (raw : String)
    (h : splitFirstEq (pyStrip raw).data = none) :
    parseEnvLine env raw = env := by
  by_cases hb : pyStrip raw = "" ∨ pyStartswith (pyStrip raw) "#" = true
  · exact parseEnvLine_skip env raw hb
  · push_neg at hb
    simp [parseEnvLine, hb.1, hb.2, h]

theorem parseEnvLine_assign (env : List (String × String)) (raw : String)
    (k v : List Char) (hb : pyStrip raw ≠ "")
    (hc : pyStartswith (pyStrip raw) "#" = false)
    (h : splitFirstEq (pyStrip raw).data = some (k, v)) :
    parseEnvLine env raw
      = setS env (pyStrip (String.mk k)) (pyStrip (String.mk v)) := by
  simp [parseEnvLine, hb, hc, h]

/-! ### Small helpers for the concrete evaluations below -/

theorem deep_merge_nil (b : Dict) : deep_merge b [] = b := by
  rw [deep_merge]

theorem replaceL_cons_neg {pat rep : List Char} {c : Char} {t : List Char}
    (h : pfx pat (c :: t) = false) :
    replaceL pat rep (c :: t) = c :: replaceL pat rep t := by
  rw [replaceL, if_neg (by simp [h])]

theorem replaceL_head_match {pat rep : List Char} (t : List Char)
    (hne : pat ≠ []) :
    replaceL pat rep (pat ++ t) = rep ++ replaceL pat rep t := by
  cases pat with
  | nil => exact absurd rfl hne
  | cons c cs =>
      rw [show (c :: cs) ++ t = c :: (cs ++ t) from rfl]
      rw [replaceL, if_pos ⟨by
          rw [show c :: (cs ++ t) = (c :: cs) ++ t from rfl]
          exact pfx_append_self _ _, by simp⟩]
      rw [show c :: (cs ++ t) = (c :: cs) ++ t from rfl, List.drop_left]

/-! ### The claims -/

/-- C1: On every completed configuration run, whatever the credentials and
whatever the prior document, the output's `gateway.auth.token` is exactly the
hex encoding of the freshly drawn random bytes (never the prior token), and
that encoding is lowercase hex of twice the drawn byte count (the script
draws 24 bytes). -/
theorem claim_C1 :
    (∀ (c : Creds) (prior : Option J) (site iid now : String)
        (bytes : List Nat) (cf : Dict),
      runFromCreds c prior site iid bytes now = some cf →
      getPath cf ["gateway", "auth", "token"] = some (J.s (token_hex bytes))) ∧
    (∀ bytes : List Nat, (token_hex bytes).length = 2 * bytes.length) ∧
    (∀ bytes : List Nat, ∀ ch ∈ (token_hex bytes).data,
      ch ∈ "0123456789abcdef".data) :=
  ⟨fun _ _ _ _ _ _ _ h => runFromCreds_token h, token_hex_length,
    token_hex_chars⟩

theorem claim_C1_witness :
    getPath ((runFromCreds ⟨"", "", false, "", "", "", "", "", "", ""⟩
        (some (J.obj [("gateway", J.obj [("auth",
          J.obj [("token", J.s "stale")])])])) "s" "i" [1, 2] "t").getD [])
      ["gateway", "auth", "token"] = some (J.s (token_hex [1, 2])) :=
  claim_C1.1 ⟨"", "", false, "", "", "", "", "", "", ""⟩
    (some (J.obj [("gateway", J.obj [("auth", J.obj [("token", J.s "stale")])])]))
    "s" "i" "t" [1, 2] _ rfl

/-- C2: A fresh run (no prior config file) with no credential resolved
produces exactly the top-level keys `gateway`, `channels` and `meta`, with
`gateway.auth.token` the fresh token and `meta.lastTouchedAt` the timestamp;
the token of the script's 24 drawn bytes has 48 hex characters (the claim's
"64 hex characters" is wrong, and `channels` is always created). -/
theorem claim_C2 (c : Creds) (site iid now : String) (bytes : List Nat)
    (h1 : c.ark_api_key = "" ∨ c.ark_model_id = "")
    (h2 : c.feishu_app_id = "") (h3 : c.feishu_app_secret = "")
    (h4 : c.telegram_bot_token = "")
    (h5 : c.dingtalk_client_id = "" ∨ c.dingtalk_client_secret = "")
    (h6 : c.wecom_token = "" ∨ c.wecom_encoding_aes_key = "")
    (hlen : bytes.length = 24) :
    ∃ cf, runFromCreds c none site iid bytes now = some cf ∧
      keys cf = ["gateway", "channels", "meta"] ∧
      getPath cf ["gateway", "auth", "token"] = some (J.s (token_hex bytes)) ∧
      getPath cf ["meta", "lastTouchedAt"] = some (J.s now) ∧
      (token_hex bytes).length = 48 := by
  refine ⟨_, runFromCreds_fresh_noCreds site iid now bytes h1 h2 h3 h4 h5 h6,
    rfl, rfl, rfl, ?_⟩
  rw [token_hex_length, hlen]

theorem claim_C2_witness :
    ∃ cf, runFromCreds ⟨"", "", false, "", "", "", "", "", "", ""⟩ none
        "s" "i" (List.replicate 24 0) "t" = some cf ∧
      keys cf = ["gateway", "channels", "meta"] ∧
      getPath cf ["gateway", "auth", "token"]
        = some (J.s (token_hex (List.replicate 24 0))) ∧
      getPath cf ["meta", "lastTouchedAt"] = some (J.s "t") ∧
      (token_hex (List.replicate 24 0)).length = 48 :=
  claim_C2 ⟨"", "", false, "", "", "", "", "", "", ""⟩ "s" "i" "t"
    (List.replicate 24 0) (Or.inl rfl) rfl rfl rfl (Or.inl rfl) (Or.inl rfl)
    (by decide)

theorem claim_C2_counterexample :
    (token_hex (List.replicate 24 0)).length ≠ 64 ∧
    (runFromCreds ⟨"", "", false, "", "", "", "", "", "", ""⟩ none "s" "i"
        (List.replicate 24 0) "t").map keys
      = some ["gateway", "channels", "meta"] :=
  ⟨by decide, rfl⟩

/-- C3: `deep_merge` recursively merges sub-dicts at keys where both sides
hold a dict and replaces wholesale (lists included) otherwise; the two
concrete examples hold, but per-key associativity holds only on pure
nested-dict trees, not for arbitrary documents. -/
theorem claim_C3 :
    deep_merge [("a", J.obj [("x", J.i 1)])] [("a", J.obj [("y", J.i 2)])]
      = [("a", J.obj [("x", J.i 1), ("y", J.i 2)])] ∧
    deep_merge [("a", J.arr [J.i 1])] [("a", J.arr [J.i 2])]
      = [("a", J.arr [J.i 2])] ∧
    (∀ (b u : Dict) (k : String) (v : J), (keys u).Nodup →
      getKey u k = some v → (∀ o, v ≠ J.obj o) →
      getKey (deep_merge b u) k = some v) ∧
    (∀ (b u : Dict) (k : String) (bo uo : Dict), (keys u).Nodup →
      getKey b k = some (J.obj bo) → getKey u k = some (J.obj uo) →
      getKey (deep_merge b u) k = some (J.obj (deep_merge bo uo))) ∧
    (∀ a b c : Dict, PureWFD a → PureWFD b → PureWFD c →
      deep_merge (deep_merge a b) c = deep_merge a (deep_merge b c)) := by
  refine ⟨?_, ?_, ?_, ?_, fun a b c ha hb hc => deep_merge_assoc ha hb hc⟩
  · have inner : deep_merge [("x", J.i 1)] [("y", J.i 2)]
        = deep_merge (setKey [("x", J.i 1)] "y" (J.i 2)) [] :=
      deep_merge_cons_other [] (fun bo vo h _ => Option.noConfusion h)
    have step : deep_merge [("a", J.obj [("x", J.i 1)])]
        [("a", J.obj [("y", J.i 2)])]
        = deep_merge (setKey [("a", J.obj [("x", J.i 1)])] "a"
            (J.obj (deep_merge [("x", J.i 1)] [("y", J.i 2)]))) [] :=
      deep_merge_cons_obj [("y", J.i 2)] [] rfl
    rw [step, inner, deep_merge_nil, deep_merge_nil]
    rfl
  · have step : deep_merge [("a", J.arr [J.i 1])] [("a", J.arr [J.i 2])]
        = deep_merge (setKey [("a", J.arr [J.i 1])] "a" (J.arr [J.i 2])) [] :=
      deep_merge_cons_other [] (fun bo vo _ hv => J.noConfusion hv)
    rw [step, deep_merge_nil]
    rfl
  · intro b u k v hnd hu hv
    rw [getKey_deep_merge hnd, hu]
    exact mergeVal_some_right hv
  · intro b u k bo uo hnd hb hu
    rw [getKey_deep_merge hnd, hb, hu]
    rfl

theorem claim_C3_counterexample :
    deep_merge (deep_merge [("a", J.obj [("y", J.i 3)])] [("a", J.i 1)])
        [("a", J.obj [("x", J.i 2)])]
      = [("a", J.obj [("x", J.i 2)])] ∧
    deep_merge [("a", J.obj [("y", J.i 3)])]
        (deep_merge [("a", J.i 1)] [("a", J.obj [("x", J.i 2)])])
      = [("a", J.obj [("y", J.i 3), ("x", J.i 2)])] ∧
    deep_merge (deep_merge [("a", J.obj [("y", J.i 3)])] [("a", J.i 1)])
        [("a", J.obj [("x", J.i 2)])]
      ≠ deep_merge [("a", J.obj [("y", J.i 3)])]
        (deep_merge [("a", J.i 1)] [("a", J.obj [("x", J.i 2)])]) := by
  have hAB : deep_merge [("a", J.obj [("y", J.i 3)])] [("a", J.i 1)]
      = [("a", J.i 1)] := by
    have step : deep_merge [("a", J.obj [("y", J.i 3)])] [("a", J.i 1)]
        = deep_merge (setKey [("a", J.obj [("y", J.i 3)])] "a" (J.i 1)) [] :=
      deep_merge_cons_other [] (fun bo vo _ hv => J.noConfusion hv)
    rw [step, deep_merge_nil]
    rfl
  have hBC : deep_merge [("a", J.i 1)] [("a", J.obj [("x", J.i 2)])]
      = [("a", J.obj [("x", J.i 2)])] := by
    have step : deep_merge [("a", J.i 1)] [("a", J.obj [("x", J.i 2)])]
        = deep_merge (setKey [("a", J.i 1)] "a" (J.obj [("x", J.i 2)])) [] :=
      deep_merge_cons_other []
        (fun bo vo h _ => J.noConfusion (Option.some.inj h))
    rw [step, deep_merge_nil]
    rfl
  have h1 : deep_merge (deep_merge [("a", J.obj [("y", J.i 3)])] [("a", J.i 1)])
      [("a", J.obj [("x", J.i 2)])] = [("a", J.obj [("x", J.i 2)])] := by
    have step : deep_merge [("a", J.i 1)] [("a", J.obj [("x", J.i 2)])]
        = deep_merge (setKey [("a", J.i 1)] "a" (J.obj [("x", J.i 2)])) [] :=
      deep_merge_cons_other []
        (fun bo vo h _ => J.noConfusion (Option.some.inj h))
    rw [hAB, step, deep_merge_nil]
    rfl
  have h2 : deep_merge [("a", J.obj [("y", J.i 3)])]
      (deep_merge [("a", J.i 1)] [("a", J.obj [("x", J.i 2)])])
      = [("a", J.obj [("y", J.i 3), ("x", J.i 2)])] := by
    have inner : deep_merge [("y", J.i 3)] [("x", J.i 2)]
        = deep_merge (setKey [("y", J.i 3)] "x" (J.i 2)) [] :=
      deep_merge_cons_other [] (fun bo vo h _ => Option.noConfusion h)
    have step : deep_merge [("a", J.obj [("y", J.i 3)])]
        [("a", J.obj [("x", J.i 2)])]
        = deep_merge (setKey [("a", J.obj [("y", J.i 3)])] "a"
            (J.obj (deep_merge [("y", J.i 3)] [("x", J.i 2)]))) [] :=
      deep_merge_cons_obj [("x", J.i 2)] [] rfl
    rw [hBC, step, inner, deep_merge_nil, deep_merge_nil]
    rfl
  refine ⟨h1, h2, fun heq => ?_⟩
  rw [h1, h2] at heq
  exact Option.noConfusion (congrArg (fun d => getPath d ["a", "y"]) heq)

/-- C4: credential resolution: a set, non-empty environment variable always
wins; otherwise the value parsed from the `.env` file is used (blank lines
and `#` comments skipped, first `=` splits, no-`=` lines silently ignored,
missing file means no file variables); otherwise the empty string. -/
theorem claim_C4 :
    (∀ (environ ef : List (String × String)) (key v : String),
      lookupS environ key = some v → v ≠ "" → get_config environ ef key = v) ∧
    (∀ (environ ef : List (String × String)) (key : String),
      lookupS environ key = none ∨ lookupS environ key = some "" →
      get_config environ ef key = (lookupS ef key).getD "") ∧
    load_env_file none = [] ∧
    (∀ (env : List (String × String)) (raw : String),
      pyStrip raw = "" ∨ pyStartswith (pyStrip raw) "#" = true →
      parseEnvLine env raw = env) ∧
    (∀ (env : List (String × String)) (raw : String),
      splitFirstEq (pyStrip raw).data = none → parseEnvLine env raw = env) ∧
    (∀ (env : List (String × String)) (raw : String) (k v : List Char),
      pyStrip raw ≠ "" → pyStartswith (pyStrip raw) "#" = false →
      splitFirstEq (pyStrip raw).data = some (k, v) →
      parseEnvLine env raw
        = setS env (pyStrip (String.mk k)) (pyStrip (String.mk v))) :=
  ⟨get_config_env_wins, get_config_fallback, rfl, parseEnvLine_skip,
    parseEnvLine_noEq, parseEnvLine_assign⟩

theorem claim_C4_witness :
    get_config [("K", "envval")] [("K", "fileval")] "K" = "envval" :=
  claim_C4.1 [("K", "envval")] [("K", "fileval")] "K" "envval" rfl (by decide)

/-- C5: when both an API key and a model id are resolved, the provider base
URL comes from the four-entry (site, coding-plan) table, with the two
BytePlus entries exactly as stated. -/
theorem claim_C5 :
    get_ark_url "BytePlus" false
      = "https://ark.ap-southeast.bytepluses.com/api/v3" ∧
    get_ark_url "BytePlus" true
      = "https://ark.ap-southeast.bytepluses.com/api/coding/v3" ∧
    (∀ (site : String) (plan : Bool),
      get_ark_url site plan ∈
        ["https://ark.ap-southeast.bytepluses.com/api/v3",
         "https://ark.ap-southeast.bytepluses.com/api/coding/v3",
         "https://ark.cn-beijing.volces.com/api/v3",
         "https://ark.cn-beijing.volces.com/api/coding/v3"]) ∧
    (∀ (c : Creds) (prior : Option J) (site iid now : String)
        (bytes : List Nat) (cf : Dict),
      runFromCreds c prior site iid bytes now = some cf →
      c.ark_api_key ≠ "" → c.ark_model_id ≠ "" →
      getPath cf ["models", "providers", "ark", "baseUrl"]
        = some (J.s (get_ark_url site c.ark_coding_plan))) := by
  refine ⟨rfl, rfl, ?_, ?_⟩
  · intro site plan
    by_cases h : site = "BytePlus" <;> cases plan <;> simp [get_ark_url, h]
  · intro c prior site iid now bytes cf h hk hm
    exact runFromCreds_baseUrl h hk hm

theorem claim_C5_witness :
    get_ark_url "BytePlus" false
      = "https://ark.ap-southeast.bytepluses.com/api/v3" :=
  claim_C5.1

/-- C6: with both wecom credentials resolved, the wecom channel block is
written whatever the AES key's length, the length warning is logged if and
only if the key is not exactly 43 characters, and the mismatch is never
fatal (a run with such credentials still completes). -/
theorem claim_C6 (c : Creds) (hwt : c.wecom_token ≠ "")
    (hwa : c.wecom_encoding_aes_key ≠ "") :
    (∀ (prior : Option J) (site iid now : String) (bytes : List Nat)
        (cf : Dict),
      runFromCreds c prior site iid bytes now = some cf →
      getPath cf ["channels", "wecom"]
        = some (wecomChannelObj c.wecom_token c.wecom_encoding_aes_key)) ∧
    (∀ (ef : List (String × String)) (priorExists : Bool) (site iid : String)
        (bytes : List Nat),
      (aesWarning c.wecom_encoding_aes_key.length
          ∈ buildLogs ef c priorExists site iid bytes)
        ↔ c.wecom_encoding_aes_key.length ≠ 43) ∧
    (∀ (site iid now : String) (bytes : List Nat),
      (runFromCreds ⟨"", "", false, "", "", "", "", "", c.wecom_token,
        c.wecom_encoding_aes_key⟩ none site iid bytes now).isSome = true) := by
  refine ⟨fun prior site iid now bytes cf h => runFromCreds_wecom h hwt hwa,
    fun ef priorExists site iid bytes => aesWarning_mem_buildLogs hwt hwa,
    fun site iid now bytes => runFromCreds_wecom_fresh_isSome c.wecom_token
      c.wecom_encoding_aes_key site iid now bytes hwt hwa⟩

theorem claim_C6_witness :
    ((aesWarning ("short" : String).length ∈ buildLogs []
        ⟨"", "", false, "", "", "", "", "", "tok", "short"⟩ false "s" "i" [0])
      ↔ ("short" : String).length ≠ 43) ∧
    (runFromCreds ⟨"", "", false, "", "", "", "", "", "tok", "short"⟩ none
      "s" "i" [0] "t").isSome = true :=
  ⟨(claim_C6 ⟨"", "", false, "", "", "", "", "", "tok", "short"⟩ (by decide)
      (by decide)).2.1 [] false "s" "i" [0],
    (claim_C6 ⟨"", "", false, "", "", "", "", "", "tok", "short"⟩ (by decide)
      (by decide)).2.2 "s" "i" "t" [0]⟩

/-- C7: with positive total memory and a unit file whose `[Service]` header
is a line of its own and occurs nowhere inside another line, the edit drops
every pre-existing MemoryMax=/MemoryHigh= directive line, inserts
MemoryMax = total*80/100 and MemoryHigh = total*75/100 (1000 MB gives 800M
and 750M) right after the header, and keeps every other line; corrected:
the insertion is a whole-text `str.replace`, so it also rewrites any
mid-line occurrence of `[Service]`, corrupting such lines instead of
preserving them. -/
theorem claim_C7 :
    (∀ (total : Nat) (content : String) (P Q : List String), 0 < total →
      pySplitlines content = P ++ "[Service]" :: Q →
      (∀ l ∈ P, occursL "[Service]".data l.data = false) →
      (∀ l ∈ Q, occursL "[Service]".data l.data = false) →
      configureMemoryLimits total content
        = some (joinNL ((P.filter fun l => !(memoryDirectiveLine l))
            ++ "[Service]"
              :: ("MemoryMax=" ++ (toString (total * 80 / 100) ++ "M"))
              :: ("MemoryHigh=" ++ (toString (total * 75 / 100) ++ "M"))
              :: (Q.filter fun l => !(memoryDirectiveLine l))))) ∧
    1000 * 80 / 100 = 800 ∧ 1000 * 75 / 100 = 750 ∧
    configureMemoryLimits 1000
        "[Unit]\nMemoryMax=100M\n\n[Service]\nExecStart=/bin/x"
      = some "[Unit]\n\n[Service]\nMemoryMax=800M\nMemoryHigh=750M\nExecStart=/bin/x" := by
  refine ⟨configureMemoryLimits_spec, by norm_num, by norm_num, ?_⟩
  have h := configureMemoryLimits_spec 1000
    "[Unit]\nMemoryMax=100M\n\n[Service]\nExecStart=/bin/x"
    ["[Unit]", "MemoryMax=100M", ""] ["ExecStart=/bin/x"]
    (by norm_num) (by decide) (by decide) (by decide)
  rw [h]
  rfl

theorem claim_C7_counterexample :
    configureMemoryLimits 1000 "[Service]\nfoo[Service]bar"
      = some "[Service]\nMemoryMax=800M\nMemoryHigh=750M\nfoo[Service]\nMemoryMax=800M\nMemoryHigh=750Mbar" ∧
    "foo[Service]bar" ∈ pySplitlines "[Service]\nfoo[Service]bar" ∧
    memoryDirectiveLine "foo[Service]bar" = false ∧
    "foo[Service]bar" ∉ pySplitlines
      "[Service]\nMemoryMax=800M\nMemoryHigh=750M\nfoo[Service]\nMemoryMax=800M\nMemoryHigh=750Mbar" := by
  refine ⟨?_, by decide, by decide, by decide⟩
  simp only [configureMemoryLimits]
  rw [if_pos (by norm_num), if_pos (by decide)]
  have hc2 : (joinNL ((pySplitlines "[Service]\nfoo[Service]bar").filter
      (fun line => !(memoryDirectiveLine line)))).data
      = "[Service]".data
        ++ '\n' :: ('f' :: 'o' :: 'o' :: ("[Service]".data ++ "bar".data)) :=
    by decide
  rw [hc2, replaceL_head_match _ (by decide), replaceL_cons_neg (by decide),
    replaceL_cons_neg (by decide), replaceL_cons_neg (by decide),
    replaceL_cons_neg (by decide), replaceL_head_match _ (by decide),
    replaceL_of_not_occurs (by decide)]
  decide

/-- C8: each retry loop runs its command until the first success or 10
attempts, sleeping 5 seconds between attempts; 9 failures then success on
the 10th attempt yields success with exactly 9 failure warnings and 9
sleeps, failing all 10 attempts yields the exhaustion warning with the flag
false, and the run still reaches the completion banner in every case. -/
theorem claim_C8 :
    (∀ cmd : Nat → Option String,
      (∀ a, 1 ≤ a → a ≤ 9 → cmd a ≠ none) → cmd 10 = none →
      (enableLoop cmd).1 = true ∧
      ((enableLoop cmd).2.filter (isFailLog "Enable")).length = 9 ∧
      ((enableLoop cmd).2.filter isSleep).length = 9) ∧
    (∀ cmd : Nat → Option String,
      (∀ a, 1 ≤ a → a ≤ 9 → cmd a ≠ none) → cmd 10 = none →
      (restartLoop cmd).1 = true ∧
      ((restartLoop cmd).2.filter (isFailLog "Start")).length = 9 ∧
      ((restartLoop cmd).2.filter isSleep).length = 9) ∧
    (∀ cmd : Nat → Option String,
      (∀ a, 1 ≤ a → a ≤ 10 → cmd a ≠ none) →
      (enableLoop cmd).1 = false ∧
      ((enableLoop cmd).2.filter (isFailLog "Enable")).length = 10 ∧
      Event.log "Warning: All enable attempts failed" ∈ (enableLoop cmd).2) ∧
    (∀ cmd : Nat → Option String,
      (∀ a, 1 ≤ a → a ≤ 10 → cmd a ≠ none) →
      (restartLoop cmd).1 = false ∧
      ((restartLoop cmd).2.filter (isFailLog "Start")).length = 10 ∧
      Event.log "Warning: All start attempts failed" ∈ (restartLoop cmd).2) ∧
    (∀ er rr : Nat → Option String,
      Event.log "========== setup-openclaw.py completed =========="
        ∈ serviceLoops er rr) := by
  refine ⟨?_, ?_, ?_, ?_, serviceLoops_banner⟩
  · intro cmd hf h10
    exact retryFrom_success cmd "Enable" "Gateway service enabled!" "enable"
      10 5 (by decide) (by decide) 9 1 (by norm_num)
      (fun a ha1 ha2 => hf a ha1 (by omega)) (by simpa using h10)
  · intro cmd hf h10
    exact retryFrom_success cmd "Start" "Gateway service started!" "start"
      10 5 (by decide) (by decide) 9 1 (by norm_num)
      (fun a ha1 ha2 => hf a ha1 (by omega)) (by simpa using h10)
  · intro cmd hf
    have h := retryFrom_allfail cmd "Enable" "Gateway service enabled!"
      "enable" 10 5 (by decide) (by decide) 9 1 (by norm_num)
      (fun a ha1 ha2 => hf a ha1 ha2)
    exact ⟨h.1, by simpa using h.2.1, h.2.2⟩
  · intro cmd hf
    have h := retryFrom_allfail cmd "Start" "Gateway service started!"
      "start" 10 5 (by decide) (by decide) 9 1 (by norm_num)
      (fun a ha1 ha2 => hf a ha1 ha2)
    exact ⟨h.1, by simpa using h.2.1, h.2.2⟩

theorem claim_C8_witness :
    (enableLoop (fun a => if a = 10 then none else some "boom")).1 = true ∧
    ((enableLoop (fun a => if a = 10 then none else some "boom")).2.filter
      (isFailLog "Enable")).length = 9 ∧
    ((enableLoop (fun a => if a = 10 then none else some "boom")).2.filter
      isSleep).length = 9 :=
  claim_C8.1 (fun a => if a = 10 then none else some "boom")
    (fun a ha1 ha2 hn => by
      simp [show a ≠ 10 from by omega] at hn)
    (by simp)

/-- C9: every completed run's output has a top-level `channels` key, created
as an empty mapping when absent, and it is a mapping whenever the prior
document's `channels` value (if any) was a mapping; corrected: a prior
non-mapping `channels` value survives unchanged when no channel credential
is resolved, so the key is not always bound to a mapping. -/
theorem claim_C9 :
    (∀ (c : Creds) (prior : Option J) (site iid now : String)
        (bytes : List Nat) (cf : Dict),
      runFromCreds c prior site iid bytes now = some cf →
      hasKey cf "channels" = true) ∧
    (∀ (c : Creds) (prior : Option J) (site iid now : String)
        (bytes : List Nat) (cf : Dict),
      runFromCreds c prior site iid bytes now = some cf →
      (∀ o v, prior = some (J.obj o) → getKey o "channels" = some v →
        ∃ y, v = J.obj y) →
      ∃ y, getKey cf "channels" = some (J.obj y)) ∧
    (∀ (c : Creds) (site iid now : String) (bytes : List Nat),
      c.ark_api_key = "" ∨ c.ark_model_id = "" →
      c.feishu_app_id = "" → c.feishu_app_secret = "" →
      c.telegram_bot_token = "" →
      c.dingtalk_client_id = "" ∨ c.dingtalk_client_secret = "" →
      c.wecom_token = "" ∨ c.wecom_encoding_aes_key = "" →
      ∃ cf, runFromCreds c none site iid bytes now = some cf ∧
        getKey cf "channels" = some (J.obj [])) := by
  refine ⟨fun c prior site iid now bytes cf h => runFromCreds_channels_present h,
    fun c prior site iid now bytes cf h hp => runFromCreds_channels_obj h hp,
    fun c site iid now bytes h1 h2 h3 h4 h5 h6 =>
      ⟨_, runFromCreds_fresh_noCreds site iid now bytes h1 h2 h3 h4 h5 h6, rfl⟩⟩

theorem claim_C9_counterexample :
    (runFromCreds ⟨"", "", false, "", "", "", "", "", "", ""⟩
        (some (J.obj [("channels", J.s "oops")])) "s" "i" [0] "t").map
      (fun cf => getKey cf "channels") = some (some (J.s "oops")) ∧
    (∀ y : Dict, J.s "oops" ≠ J.obj y) :=
  ⟨rfl, fun y h => J.noConfusion h⟩

/-- C10: when their credentials are present, the telegram,
dingtalk-connector and wecom channel blocks of the output are exactly the
fixed literal blocks, whatever stood under those keys before (whole-block
replacement), while feishu appId and appSecret are written field by field
and every other pre-existing `channels.feishu` field is preserved. -/
theorem claim_C10 :
    (∀ (c : Creds) (prior : Option J) (site iid now : String)
        (bytes : List Nat) (cf : Dict),
      runFromCreds c prior site iid bytes now = some cf →
      c.telegram_bot_token ≠ "" →
      getPath cf ["channels", "telegram"]
        = some (telegramChannelObj c.telegram_bot_token)) ∧
    (∀ (c : Creds) (prior : Option J) (site iid now : String)
        (bytes : List Nat) (cf : Dict),
      runFromCreds c prior site iid bytes now = some cf →
      c.dingtalk_client_id ≠ "" → c.dingtalk_client_secret ≠ "" →
      getPath cf ["channels", "dingtalk-connector"]
        = some (dingtalkChannelObj c.dingtalk_client_id
            c.dingtalk_client_secret (J.s (token_hex bytes)))) ∧
    (∀ (c : Creds) (prior : Option J) (site iid now : String)
        (bytes : List Nat) (cf : Dict),
      runFromCreds c prior site iid bytes now = some cf →
      c.wecom_token ≠ "" → c.wecom_encoding_aes_key ≠ "" →
      getPath cf ["channels", "wecom"]
        = some (wecomChannelObj c.wecom_token c.wecom_encoding_aes_key)) ∧
    (∀ (c : Creds) (o : Dict) (site iid now : String) (bytes : List Nat)
        (cf : Dict),
      runFromCreds c (some (J.obj o)) site iid bytes now = some cf →
      c.feishu_app_id ≠ "" →
      getPath cf ["channels", "feishu", "appId"]
        = some (J.s c.feishu_app_id)) ∧
    (∀ (c : Creds) (o : Dict) (site iid now : String) (bytes : List Nat)
        (cf : Dict),
      runFromCreds c (some (J.obj o)) site iid bytes now = some cf →
      c.feishu_app_secret ≠ "" →
      getPath cf ["channels", "feishu", "appSecret"]
        = some (J.s c.feishu_app_secret)) ∧
    (∀ (c : Creds) (o : Dict) (site iid now : String) (bytes : List Nat)
        (cf : Dict) (k : String),
      runFromCreds c (some (J.obj o)) site iid bytes now = some cf →
      k ≠ "appId" → k ≠ "appSecret" →
      getPath cf ["channels", "feishu", k]
        = getPath o ["channels", "feishu", k]) :=
  ⟨fun c prior site iid now bytes cf h htg => runFromCreds_telegram h htg,
    fun c prior site iid now bytes cf h hid hsec =>
      runFromCreds_dingtalk h hid hsec,
    fun c prior site iid now bytes cf h hwt hwa => runFromCreds_wecom h hwt hwa,
    fun c o site iid now bytes cf h hid => runFromCreds_feishu_appId h hid,
    fun c o site iid now bytes cf h hsec => runFromCreds_feishu_appSecret h hsec,
    fun c o site iid now bytes cf k h hk1 hk2 =>
      runFromCreds_feishu_frame h hk1 hk2⟩

theorem claim_C10_witness :
    getPath ((runFromCreds ⟨"", "", false, "fid", "fs", "tg", "did", "ds",
        "wt", "wa"⟩ (some (J.obj [("channels", J.obj
          [("telegram", J.obj [("stale", J.b true)]),
           ("feishu", J.obj [("extra", J.i 7)])])])) "s" "i" [0] "t").getD [])
      ["channels", "telegram"] = some (telegramChannelObj "tg") ∧
    getPath ((runFromCreds ⟨"", "", false, "fid", "fs", "tg", "did", "ds",
        "wt", "wa"⟩ (some (J.obj [("channels", J.obj
          [("telegram", J.obj [("stale", J.b true)]),
           ("feishu", J.obj [("extra", J.i 7)])])])) "s" "i" [0] "t").getD [])
      ["channels", "feishu", "extra"]
      = getPath [("channels", J.obj
          [("telegram", J.obj [("stale", J.b true)]),
           ("feishu", J.obj [("extra", J.i 7)])])]
          ["channels", "feishu", "extra"] :=
  ⟨claim_C10.1 ⟨"", "", false, "fid", "fs", "tg", "did", "ds", "wt", "wa"⟩
      (some (J.obj [("channels", J.obj
        [("telegram", J.obj [("stale", J.b true)]),
         ("feishu", J.obj [("extra", J.i 7)])])]))
      "s" "i" "t" [0] _ rfl (by decide),
    claim_C10.2.2.2.2.2 ⟨"", "", false, "fid", "fs", "tg", "did", "ds",
        "wt", "wa"⟩
      [("channels", J.obj
        [("telegram", J.obj [("stale", J.b true)]),
         ("feishu", J.obj [("extra", J.i 7)])])]
      "s" "i" "t" [0] _ "extra" rfl (by decide) (by decide)⟩

end OpenClaw
